import Mathlib

/-!
Shallow embedding of the Sudoku CSP solver (notebook source: read_board /
naked_single / hidden_single / ac3 / revise_arc_consistency / mrv /
degree_heuristic / is_board_complete / solve / generate_constraints).

Cells 'A1'..'I9' are modelled as pairs (row, column) of Fin 9; candidate
digits '1'..'9' as Fin 9 (value k stands for the digit k+1).  The board
dict produced by read_board holds exactly the 81 cells, inserted in
row-major order, and no operation of the solver ever adds or removes a
key; it is therefore embedded first-order as the list of the 81 domains in
that same row-major order (list position = dict key, list order = dict
iteration order).  dom and setDom are the dict read and write.  In-place
mutation is modelled by returning the new board state; loops that the
Python code lets run without a syntactic bound are embedded with an
explicit fuel argument that is proved sufficient (each shrinking step
strictly decreases the summed domain sizes).
-/

namespace SudokuCSP

set_option maxRecDepth 40000

abbrev Digit := Fin 9
abbrev Cell := Fin 9 × Fin 9
abbrev Domain := Finset Digit
abbrev Board := List Domain
abbrev Arc := Cell × Cell

/-- Position of a cell in the row-major dict order of read_board. -/
def idx (c : Cell) : Nat := 9 * c.1.val + c.2.val

/-- Dict read board[c]. -/
def dom (b : Board) (c : Cell) : Domain := b.getD (idx c) ∅

/-- Dict write board[c] = s (all writes of the solver target one of the 81
existing keys). -/
def setDom (b : Board) (c : Cell) (s : Domain) : Board := b.set (idx c) s

/-- The 81 cells in the row-major order in which read_board inserts them
into the dict ('A1', 'A2', ..., 'I9'), which is also the dict iteration
order used by mrv, degree_heuristic and is_board_complete. -/
def cells : List Cell :=
  (List.finRange 9).flatMap fun r => (List.finRange 9).map fun c => (r, c)

/-- Build a length-81 board from a per-cell domain description. -/
def mkBoard (f : Cell → Domain) : Board := cells.map f

/-- One row group of generate_constraints. -/
def rowGroup (r : Fin 9) : List Cell := (List.finRange 9).map fun c => (r, c)

/-- One column group of generate_constraints. -/
def colGroup (c : Fin 9) : List Cell := (List.finRange 9).map fun r => (r, c)

/-- One 3x3 box group of generate_constraints. -/
def boxGroup (bi bj : Fin 3) : List Cell :=
  (List.finRange 3).flatMap fun di => (List.finRange 3).map fun dj =>
    (⟨3 * bi.val + di.val, by have := bi.isLt; have := di.isLt; omega⟩,
     ⟨3 * bj.val + dj.val, by have := bj.isLt; have := dj.isLt; omega⟩)

/-- The nine row groups of generate_constraints, in order. -/
def rowCons : List (List Cell) := (List.finRange 9).map rowGroup

/-- The nine column groups of generate_constraints, in order. -/
def colCons : List (List Cell) := (List.finRange 9).map colGroup

/-- The nine box groups of generate_constraints, in order. -/
def boxCons : List (List Cell) :=
  (List.finRange 3).flatMap fun bi => (List.finRange 3).map fun bj => boxGroup bi bj

/-- generate_constraints: the 27 groups, rows then columns then boxes, in
source order. -/
def constraints : List (List Cell) := rowCons ++ colCons ++ boxCons

/-- is_board_complete: all(len(board[var]) == 1 for var in board). -/
def is_board_complete (b : Board) : Bool :=
  cells.all fun c => (dom b c).card == 1

/-- The '123456789' digit string iterated by hidden_single, in order. -/
def digitsList : List Digit := List.finRange 9

/-- The unique element of a singleton domain (next(iter(s)) in the source). -/
def singVal (s : Domain) : Digit :=
  (digitsList.filter fun d => decide (d ∈ s)).headD ⟨0, by omega⟩

/-- The inner deletion loop of naked_single: remove value v (the singleton
value of KeyVar) from every other cell of the group, in group order. -/
def nakedElim (const : List Cell) (KeyVar : Cell) (v : Digit) (b : Board) : Board :=
  const.foldl (fun b2 KeyXDelete =>
    if KeyXDelete ≠ KeyVar then
      setDom b2 KeyXDelete ((dom b2 KeyXDelete).erase v)
    else b2) b

/-- One group pass of naked_single: scan the group in order; whenever the
cell currently has a singleton domain, delete its value from the other
cells of the group (the board mutates as the scan proceeds). -/
def nakedGroup (b : Board) (const : List Cell) : Board :=
  const.foldl (fun b2 KeyVar =>
    if (dom b2 KeyVar).card = 1 then nakedElim const KeyVar (singVal (dom b2 KeyVar)) b2
    else b2) b

/-- naked_single(board, constraints): a single in-order pass over the 27
groups, mutating the board in place. -/
def naked_single (b : Board) : Board := constraints.foldl nakedGroup b

/-- One group pass of hidden_single: for each digit in '123456789' order,
if exactly one cell of the group currently lists the digit, assign the
digit to that cell. -/
def hiddenGroup (b : Board) (const : List Cell) : Board :=
  digitsList.foldl (fun b2 digit =>
    match const.filter (fun c => decide (digit ∈ dom b2 c)) with
    | [k] => setDom b2 k {digit}
    | _ => b2) b

/-- hidden_single(board, constraints): a single in-order pass over the 27
groups, mutating the board in place. -/
def hidden_single (b : Board) : Board := constraints.foldl hiddenGroup b

/-- revise_arc_consistency(Xi, Xj, board): delete every value of Xi's
domain that has no differing support in Xj's domain; return whether at
least one value was removed, together with the mutated board. -/
def revise (Xi Xj : Cell) (b : Board) : Bool × Board :=
  let keep := (dom b Xi).filter fun x => ∃ y ∈ dom b Xj, x ≠ y
  if keep = dom b Xi then (false, b) else (true, setDom b Xi keep)

/-- The initial AC-3 worklist: every ordered pair of distinct cells drawn
from the same group, in comprehension order (duplicates included, exactly
as the Python deque is built). -/
def initArcs : List Arc :=
  constraints.flatMap fun g =>
    g.flatMap fun Xi => (g.filter fun Xj => decide (Xj ≠ Xi)).map fun Xj => (Xi, Xj)

/-- The arcs appended after a successful revision of (Xi, Xj): (Xk, Xi)
for every group containing Xi and every Xk in it other than Xi and Xj. -/
def newArcs (Xi Xj : Cell) : List Arc :=
  constraints.flatMap fun g =>
    if Xi ∈ g then
      (g.filter fun Xk => decide (Xk ≠ Xi) && decide (Xk ≠ Xj)).map fun Xk => (Xk, Xi)
    else []

/-- Summed domain sizes; every revision that removes a value strictly
decreases it, which bounds the number of shrink events of the AC-3 loop. -/
def totalSize (b : Board) : Nat := (b.map Finset.card).sum

/-- The AC-3 worklist loop between two shrink events: pop arcs and revise;
on a revision that removed values either fail on an emptied domain or hand
the extended worklist to the continuation (one unit of fuel is consumed
exactly when a domain shrank). -/
def ac3Seg (next : List Arc → Board → Bool × Board) : List Arc → Board → Bool × Board
  | [], b => (true, b)
  | (Xi, Xj) :: rest, b =>
    match revise Xi Xj b with
    | (true, b2) =>
      if dom b2 Xi = ∅ then (false, b2)
      else next (rest ++ newArcs Xi Xj) b2
    | (false, _) => ac3Seg next rest b

/-- The AC-3 worklist loop, fueled by the number of remaining shrink
events; fuel larger than totalSize is proved sufficient, so the fuel-zero
branch is unreachable under that bound. -/
def ac3Go : Nat → List Arc → Board → Bool × Board
  | 0, _, b => (true, b)
  | fuel + 1, q, b => ac3Seg (ac3Go fuel) q b

/-- ac3(board, constraints): run the worklist loop from the full initial
arc queue.  Returns the consistency flag and the mutated board. -/
def ac3 (b : Board) : Bool × Board := ac3Go (totalSize b + 1) initArcs b

/-- The unassigned-cell generator (v for v in board if len(board[v]) > 1),
in dict iteration order. -/
def unassignedCells (b : Board) : List Cell :=
  cells.filter fun c => decide (1 < (dom b c).card)

/-- Python min(gen, key=f, default=None): first element of the list
attaining the minimal key (min replaces the current best only on a
strictly smaller key). -/
def minByFirst (f : Cell → Nat) : List Cell → Option Cell
  | [] => none
  | c :: cs => some (cs.foldl (fun best x => if f x < f best then x else best) c)

/-- Python max(gen, key=f, default=None): first element of the list
attaining the maximal key. -/
def maxByFirst (f : Cell → Nat) : List Cell → Option Cell
  | [] => none
  | c :: cs => some (cs.foldl (fun best x => if f best < f x then x else best) c)

/-- mrv(board): the unassigned cell with the fewest candidates (first such
cell in dict order on ties), none if every domain is a singleton or empty. -/
def mrv (b : Board) : Option Cell :=
  minByFirst (fun c => (dom b c).card) (unassignedCells b)

/-- degree_heuristic(board, constraints): the unassigned cell contained in
the most groups (first such cell on ties). -/
def degree_heuristic (b : Board) : Option Cell :=
  maxByFirst (fun c => (constraints.filter fun g => decide (c ∈ g)).length)
    (unassignedCells b)

/-- The selection expression mrv(board) or degree_heuristic(board,
constraints) of solve; cell names are nonempty strings, hence truthy, so
Python or-falls-through exactly when mrv returns None. -/
def select (b : Board) : Option Cell :=
  match mrv b with
  | some v => some v
  | none => degree_heuristic b

/-- The candidate iteration order of for value in board[var].copy(); set
iteration order is unspecified in Python, fixed here as ascending. -/
def domList (s : Domain) : List Digit := digitsList.filter fun d => decide (d ∈ s)

/-- The value loop of solve: for each candidate, collapse var to it on a
copy, run ac3 on the copy, and recurse via next when consistent; the first
branch whose recursion returns a board wins. -/
def tryValues (next : Board → Option Board) (b : Board) (var : Cell) :
    List Digit → Option Board
  | [] => none
  | v :: vs =>
    match ac3 (setDom b var {v}) with
    | (true, b3) =>
      match next b3 with
      | some sol => some sol
      | none => tryValues next b var vs
    | (false, _) => tryValues next b var vs

/-- The recursive body of solve, fueled by the recursion depth; fuel
larger than totalSize is proved sufficient (each branch strictly shrinks
the summed domain sizes), so the fuel-zero branch is unreachable. -/
def solveGo : Nat → Board → Option Board
  | 0, _ => none
  | fuel + 1, b =>
    if is_board_complete b then some b
    else
      match select b with
      | none => none
      | some var => tryValues (solveGo fuel) b var (domList (dom b var))

/-- solve(board, constraints): backtracking search.  Returns the solved
board or None. -/
def solve (b : Board) : Option Board := solveGo (totalSize b + 1) b

/-- The value loop of solve with the state of the caller-owned board
object threaded explicitly: the loop reads the caller's board, mutates
only the per-branch copy, and hands back the caller board state on exit. -/
def tryValuesS (next : Board → Option Board × Board) (b : Board) (var : Cell) :
    List Digit → Option Board × Board
  | [] => (none, b)
  | v :: vs =>
    match ac3 (setDom b var {v}) with
    | (true, b3) =>
      match (next b3).1 with
      | some sol => (some sol, b)
      | none => tryValuesS next b var vs
    | (false, _) => tryValuesS next b var vs

/-- solve with the caller-owned board object state threaded explicitly:
the second component is the state of the argument board after the call
(all mutating calls inside solve target the per-branch copy only; mrv and
degree_heuristic only read, so they embed as pure functions). -/
def solveSGo : Nat → Board → Option Board × Board
  | 0, b => (none, b)
  | fuel + 1, b =>
    if is_board_complete b then (some b, b)
    else
      match select b with
      | none => (none, b)
      | some var => tryValuesS (solveSGo fuel) b var (domList (dom b var))

/-! Specification-side predicates (stated over the embedded code, used to
express the claims). -/

/-- An assignment satisfies the Sudoku constraints: cells of a common
group carry pairwise distinct values. -/
def Satisfies (f : Cell → Digit) : Prop :=
  ∀ g ∈ constraints, ∀ c₁ ∈ g, ∀ c₂ ∈ g, c₁ ≠ c₂ → f c₁ ≠ f c₂

/-- An assignment picks one value from each current domain of the board. -/
def Admissible (b : Board) (f : Cell → Digit) : Prop := ∀ c, f c ∈ dom b c

/-- Some assignment from the current domains satisfies all constraints. -/
def Satisfiable (b : Board) : Prop := ∃ f, Admissible b f ∧ Satisfies f

/-- The directed arc (Xi, Xj) is consistent: every value of Xi has a
differing support in Xj. -/
def arcConsistent (b : Board) (Xi Xj : Cell) : Prop :=
  ∀ x ∈ dom b Xi, ∃ y ∈ dom b Xj, x ≠ y

/-- An arc as enqueued by AC-3: an ordered pair of distinct cells sharing
a group. -/
def GoodArc (a : Arc) : Prop :=
  a.1 ≠ a.2 ∧ ∃ g ∈ constraints, a.1 ∈ g ∧ a.2 ∈ g

/-- Every group of the board holds pairwise distinct singleton domains
covering every digit: the output constraint-satisfaction property. -/
def GroupsValid (b : Board) : Prop :=
  ∀ g ∈ constraints,
    (∀ c₁ ∈ g, ∀ c₂ ∈ g, c₁ ≠ c₂ → dom b c₁ ≠ dom b c₂) ∧
    ∀ d : Digit, ∃ c ∈ g, dom b c = {d}

instance (b : Board) : Decidable (GroupsValid b) := by
  unfold GroupsValid; exact inferInstance

instance (f : Cell → Digit) : Decidable (Satisfies f) := by
  unfold Satisfies; exact inferInstance

instance (b : Board) (f : Cell → Digit) : Decidable (Admissible b f) := by
  unfold Admissible; exact inferInstance

/-- Pointwise domain inclusion of equally-long boards: the shrink order in
which every solver operation moves. -/
def SubB (b' b : Board) : Prop :=
  b'.length = b.length ∧ ∀ i : Nat, b'.getD i ∅ ⊆ b.getD i ∅

/-- The values of Xi's domain that survive a revision against Xj. -/
def keepSet (Xi Xj : Cell) (b : Board) : Domain :=
  (dom b Xi).filter fun x => ∃ y ∈ dom b Xj, x ≠ y

/-! Concrete boards used as test inputs for the claims. -/

/-- The digit written n (1..9) as a domain value. -/
def dg (n : Nat) : Digit := ⟨(n - 1) % 9, Nat.mod_lt _ (by omega)⟩

/-- Build a board from explicit per-cell candidate lists written with the
digits 1..9. -/
def mkDoms (l : List (List Nat)) : Board :=
  l.map fun ds => ds.foldr (fun n s => insert (dg n) s) ∅

/-- The completed example grid printed by the notebook run. -/
def solDigits : List Nat :=
  [3,6,2,8,5,9,1,7,4,
   4,8,9,1,3,7,6,5,2,
   7,1,5,4,6,2,8,3,9,
   9,7,3,2,1,8,4,6,5,
   5,4,6,7,9,3,2,1,8,
   8,2,1,6,4,5,3,9,7,
   1,3,7,5,8,4,9,2,6,
   2,9,8,3,7,6,5,4,1,
   6,5,4,9,2,1,7,8,3]

/-- The example solution as an assignment. -/
def fSol : Cell → Digit := fun c => dg (solDigits.getD (idx c) 1)

/-- The example solution as an all-singleton board. -/
def bSolved : Board := solDigits.map fun n => {dg n}

def cA1 : Cell := (0, 0)
def cA2 : Cell := (0, 1)
def cA3 : Cell := (0, 2)
def cA4 : Cell := (0, 3)
def cA5 : Cell := (0, 4)
def cB1 : Cell := (1, 0)

/-- A complete but invalid board: every cell pinned to the digit 5. -/
def bAll5 : Board := List.replicate 81 {dg 5}

/-- A complete but invalid board: every cell pinned to the digit 7. -/
def bAll7 : Board := List.replicate 81 {dg 7}

/-- The board whose every domain is already empty. -/
def bEmptyB : Board := List.replicate 81 ∅

/-- The board whose every domain is full. -/
def bFull : Board := List.replicate 81 Finset.univ

/-- The example solution with cell A1 reopened to the two candidates 3
(correct) and 5 (wrong): a one-branch search instance. -/
def bW : Board := bSolved.set 0 {dg 3, dg 5}

/-- The board solve returns on bW: A1 collapsed back to 3. -/
def bWSol : Board := bW.set 0 {dg 3}

/-- Two clashing singletons in row A: ac3 fails immediately on it. -/
def bC6 : Board := mkBoard fun c =>
  if c = cA1 then {dg 1} else if c = cA2 then {dg 1} else Finset.univ

/-- A board on which one naked_single pass under-propagates: column 1
pins A1 to 1 only after row A has already been scanned, so A5 keeps 1
until a second pass. -/
def bN : Board := mkBoard fun c =>
  if c = cB1 then {dg 2}
  else if c = cA1 then {dg 1, dg 2}
  else if c = cA5 then {dg 1, dg 3}
  else Finset.univ

/-- A board on which one hidden_single pass under-propagates: inside row A
the digits 2, 3 and 5 are placed during the pass, leaving digit 1 hidden
in A3, which only a second pass assigns. -/
def bH : Board := mkBoard fun c =>
  if c = cA1 then {dg 1, dg 2}
  else if c = cA2 then {dg 1, dg 3}
  else if c = cA3 then {dg 1, dg 4}
  else if c = cA4 then {dg 4, dg 5}
  else if c.1 = 0 then {dg 6, dg 7, dg 8, dg 9}
  else Finset.univ

/-- State of bN after the row and column group passes of naked_single. -/
def nB : Board := mkDoms
  [[1],[1,2,3,4,5,6,7,8,9],[1,2,3,4,5,6,7,8,9],[1,2,3,4,5,6,7,8,9],[1,3],[1,2,3,4,5,6,7,8,9],[1,2,3,4,5,6,7,8,9],[1,2,3,4,5,6,7,8,9],[1,2,3,4,5,6,7,8,9],
   [2],[1,3,4,5,6,7,8,9],[1,3,4,5,6,7,8,9],[1,3,4,5,6,7,8,9],[1,3,4,5,6,7,8,9],[1,3,4,5,6,7,8,9],[1,3,4,5,6,7,8,9],[1,3,4,5,6,7,8,9],[1,3,4,5,6,7,8,9],
   [1,3,4,5,6,7,8,9],[1,2,3,4,5,6,7,8,9],[1,2,3,4,5,6,7,8,9],[1,2,3,4,5,6,7,8,9],[1,2,3,4,5,6,7,8,9],[1,2,3,4,5,6,7,8,9],[1,2,3,4,5,6,7,8,9],[1,2,3,4,5,6,7,8,9],[1,2,3,4,5,6,7,8,9],
   [1,3,4,5,6,7,8,9],[1,2,3,4,5,6,7,8,9],[1,2,3,4,5,6,7,8,9],[1,2,3,4,5,6,7,8,9],[1,2,3,4,5,6,7,8,9],[1,2,3,4,5,6,7,8,9],[1,2,3,4,5,6,7,8,9],[1,2,3,4,5,6,7,8,9],[1,2,3,4,5,6,7,8,9],
   [1,3,4,5,6,7,8,9],[1,2,3,4,5,6,7,8,9],[1,2,3,4,5,6,7,8,9],[1,2,3,4,5,6,7,8,9],[1,2,3,4,5,6,7,8,9],[1,2,3,4,5,6,7,8,9],[1,2,3,4,5,6,7,8,9],[1,2,3,4,5,6,7,8,9],[1,2,3,4,5,6,7,8,9],
   [1,3,4,5,6,7,8,9],[1,2,3,4,5,6,7,8,9],[1,2,3,4,5,6,7,8,9],[1,2,3,4,5,6,7,8,9],[1,2,3,4,5,6,7,8,9],[1,2,3,4,5,6,7,8,9],[1,2,3,4,5,6,7,8,9],[1,2,3,4,5,6,7,8,9],[1,2,3,4,5,6,7,8,9],
   [1,3,4,5,6,7,8,9],[1,2,3,4,5,6,7,8,9],[1,2,3,4,5,6,7,8,9],[1,2,3,4,5,6,7,8,9],[1,2,3,4,5,6,7,8,9],[1,2,3,4,5,6,7,8,9],[1,2,3,4,5,6,7,8,9],[1,2,3,4,5,6,7,8,9],[1,2,3,4,5,6,7,8,9],
   [1,3,4,5,6,7,8,9],[1,2,3,4,5,6,7,8,9],[1,2,3,4,5,6,7,8,9],[1,2,3,4,5,6,7,8,9],[1,2,3,4,5,6,7,8,9],[1,2,3,4,5,6,7,8,9],[1,2,3,4,5,6,7,8,9],[1,2,3,4,5,6,7,8,9],[1,2,3,4,5,6,7,8,9],
   [1,3,4,5,6,7,8,9],[1,2,3,4,5,6,7,8,9],[1,2,3,4,5,6,7,8,9],[1,2,3,4,5,6,7,8,9],[1,2,3,4,5,6,7,8,9],[1,2,3,4,5,6,7,8,9],[1,2,3,4,5,6,7,8,9],[1,2,3,4,5,6,7,8,9],[1,2,3,4,5,6,7,8,9]]
/-- State of bN after one full naked_single pass. -/
def nC : Board := mkDoms
  [[1],[3,4,5,6,7,8,9],[3,4,5,6,7,8,9],[1,2,3,4,5,6,7,8,9],[1,3],[1,2,3,4,5,6,7,8,9],[1,2,3,4,5,6,7,8,9],[1,2,3,4,5,6,7,8,9],[1,2,3,4,5,6,7,8,9],
   [2],[3,4,5,6,7,8,9],[3,4,5,6,7,8,9],[1,3,4,5,6,7,8,9],[1,3,4,5,6,7,8,9],[1,3,4,5,6,7,8,9],[1,3,4,5,6,7,8,9],[1,3,4,5,6,7,8,9],[1,3,4,5,6,7,8,9],
   [3,4,5,6,7,8,9],[3,4,5,6,7,8,9],[3,4,5,6,7,8,9],[1,2,3,4,5,6,7,8,9],[1,2,3,4,5,6,7,8,9],[1,2,3,4,5,6,7,8,9],[1,2,3,4,5,6,7,8,9],[1,2,3,4,5,6,7,8,9],[1,2,3,4,5,6,7,8,9],
   [1,3,4,5,6,7,8,9],[1,2,3,4,5,6,7,8,9],[1,2,3,4,5,6,7,8,9],[1,2,3,4,5,6,7,8,9],[1,2,3,4,5,6,7,8,9],[1,2,3,4,5,6,7,8,9],[1,2,3,4,5,6,7,8,9],[1,2,3,4,5,6,7,8,9],[1,2,3,4,5,6,7,8,9],
   [1,3,4,5,6,7,8,9],[1,2,3,4,5,6,7,8,9],[1,2,3,4,5,6,7,8,9],[1,2,3,4,5,6,7,8,9],[1,2,3,4,5,6,7,8,9],[1,2,3,4,5,6,7,8,9],[1,2,3,4,5,6,7,8,9],[1,2,3,4,5,6,7,8,9],[1,2,3,4,5,6,7,8,9],
   [1,3,4,5,6,7,8,9],[1,2,3,4,5,6,7,8,9],[1,2,3,4,5,6,7,8,9],[1,2,3,4,5,6,7,8,9],[1,2,3,4,5,6,7,8,9],[1,2,3,4,5,6,7,8,9],[1,2,3,4,5,6,7,8,9],[1,2,3,4,5,6,7,8,9],[1,2,3,4,5,6,7,8,9],
   [1,3,4,5,6,7,8,9],[1,2,3,4,5,6,7,8,9],[1,2,3,4,5,6,7,8,9],[1,2,3,4,5,6,7,8,9],[1,2,3,4,5,6,7,8,9],[1,2,3,4,5,6,7,8,9],[1,2,3,4,5,6,7,8,9],[1,2,3,4,5,6,7,8,9],[1,2,3,4,5,6,7,8,9],
   [1,3,4,5,6,7,8,9],[1,2,3,4,5,6,7,8,9],[1,2,3,4,5,6,7,8,9],[1,2,3,4,5,6,7,8,9],[1,2,3,4,5,6,7,8,9],[1,2,3,4,5,6,7,8,9],[1,2,3,4,5,6,7,8,9],[1,2,3,4,5,6,7,8,9],[1,2,3,4,5,6,7,8,9],
   [1,3,4,5,6,7,8,9],[1,2,3,4,5,6,7,8,9],[1,2,3,4,5,6,7,8,9],[1,2,3,4,5,6,7,8,9],[1,2,3,4,5,6,7,8,9],[1,2,3,4,5,6,7,8,9],[1,2,3,4,5,6,7,8,9],[1,2,3,4,5,6,7,8,9],[1,2,3,4,5,6,7,8,9]]
/-- State of nC after the row and column group passes of a second naked_single pass. -/
def nE : Board := mkDoms
  [[1],[4,5,6,7,8,9],[4,5,6,7,8,9],[2,4,5,6,7,8,9],[3],[2,4,5,6,7,8,9],[2,4,5,6,7,8,9],[2,4,5,6,7,8,9],[2,4,5,6,7,8,9],
   [2],[3,4,5,6,7,8,9],[3,4,5,6,7,8,9],[1,3,4,5,6,7,8,9],[1,4,5,6,7,8,9],[1,3,4,5,6,7,8,9],[1,3,4,5,6,7,8,9],[1,3,4,5,6,7,8,9],[1,3,4,5,6,7,8,9],
   [3,4,5,6,7,8,9],[3,4,5,6,7,8,9],[3,4,5,6,7,8,9],[1,2,3,4,5,6,7,8,9],[1,2,4,5,6,7,8,9],[1,2,3,4,5,6,7,8,9],[1,2,3,4,5,6,7,8,9],[1,2,3,4,5,6,7,8,9],[1,2,3,4,5,6,7,8,9],
   [3,4,5,6,7,8,9],[1,2,3,4,5,6,7,8,9],[1,2,3,4,5,6,7,8,9],[1,2,3,4,5,6,7,8,9],[1,2,4,5,6,7,8,9],[1,2,3,4,5,6,7,8,9],[1,2,3,4,5,6,7,8,9],[1,2,3,4,5,6,7,8,9],[1,2,3,4,5,6,7,8,9],
   [3,4,5,6,7,8,9],[1,2,3,4,5,6,7,8,9],[1,2,3,4,5,6,7,8,9],[1,2,3,4,5,6,7,8,9],[1,2,4,5,6,7,8,9],[1,2,3,4,5,6,7,8,9],[1,2,3,4,5,6,7,8,9],[1,2,3,4,5,6,7,8,9],[1,2,3,4,5,6,7,8,9],
   [3,4,5,6,7,8,9],[1,2,3,4,5,6,7,8,9],[1,2,3,4,5,6,7,8,9],[1,2,3,4,5,6,7,8,9],[1,2,4,5,6,7,8,9],[1,2,3,4,5,6,7,8,9],[1,2,3,4,5,6,7,8,9],[1,2,3,4,5,6,7,8,9],[1,2,3,4,5,6,7,8,9],
   [3,4,5,6,7,8,9],[1,2,3,4,5,6,7,8,9],[1,2,3,4,5,6,7,8,9],[1,2,3,4,5,6,7,8,9],[1,2,4,5,6,7,8,9],[1,2,3,4,5,6,7,8,9],[1,2,3,4,5,6,7,8,9],[1,2,3,4,5,6,7,8,9],[1,2,3,4,5,6,7,8,9],
   [3,4,5,6,7,8,9],[1,2,3,4,5,6,7,8,9],[1,2,3,4,5,6,7,8,9],[1,2,3,4,5,6,7,8,9],[1,2,4,5,6,7,8,9],[1,2,3,4,5,6,7,8,9],[1,2,3,4,5,6,7,8,9],[1,2,3,4,5,6,7,8,9],[1,2,3,4,5,6,7,8,9],
   [3,4,5,6,7,8,9],[1,2,3,4,5,6,7,8,9],[1,2,3,4,5,6,7,8,9],[1,2,3,4,5,6,7,8,9],[1,2,4,5,6,7,8,9],[1,2,3,4,5,6,7,8,9],[1,2,3,4,5,6,7,8,9],[1,2,3,4,5,6,7,8,9],[1,2,3,4,5,6,7,8,9]]
/-- State of bN after two naked_single passes. -/
def nF : Board := mkDoms
  [[1],[4,5,6,7,8,9],[4,5,6,7,8,9],[2,4,5,6,7,8,9],[3],[2,4,5,6,7,8,9],[2,4,5,6,7,8,9],[2,4,5,6,7,8,9],[2,4,5,6,7,8,9],
   [2],[3,4,5,6,7,8,9],[3,4,5,6,7,8,9],[1,4,5,6,7,8,9],[1,4,5,6,7,8,9],[1,4,5,6,7,8,9],[1,3,4,5,6,7,8,9],[1,3,4,5,6,7,8,9],[1,3,4,5,6,7,8,9],
   [3,4,5,6,7,8,9],[3,4,5,6,7,8,9],[3,4,5,6,7,8,9],[1,2,4,5,6,7,8,9],[1,2,4,5,6,7,8,9],[1,2,4,5,6,7,8,9],[1,2,3,4,5,6,7,8,9],[1,2,3,4,5,6,7,8,9],[1,2,3,4,5,6,7,8,9],
   [3,4,5,6,7,8,9],[1,2,3,4,5,6,7,8,9],[1,2,3,4,5,6,7,8,9],[1,2,3,4,5,6,7,8,9],[1,2,4,5,6,7,8,9],[1,2,3,4,5,6,7,8,9],[1,2,3,4,5,6,7,8,9],[1,2,3,4,5,6,7,8,9],[1,2,3,4,5,6,7,8,9],
   [3,4,5,6,7,8,9],[1,2,3,4,5,6,7,8,9],[1,2,3,4,5,6,7,8,9],[1,2,3,4,5,6,7,8,9],[1,2,4,5,6,7,8,9],[1,2,3,4,5,6,7,8,9],[1,2,3,4,5,6,7,8,9],[1,2,3,4,5,6,7,8,9],[1,2,3,4,5,6,7,8,9],
   [3,4,5,6,7,8,9],[1,2,3,4,5,6,7,8,9],[1,2,3,4,5,6,7,8,9],[1,2,3,4,5,6,7,8,9],[1,2,4,5,6,7,8,9],[1,2,3,4,5,6,7,8,9],[1,2,3,4,5,6,7,8,9],[1,2,3,4,5,6,7,8,9],[1,2,3,4,5,6,7,8,9],
   [3,4,5,6,7,8,9],[1,2,3,4,5,6,7,8,9],[1,2,3,4,5,6,7,8,9],[1,2,3,4,5,6,7,8,9],[1,2,4,5,6,7,8,9],[1,2,3,4,5,6,7,8,9],[1,2,3,4,5,6,7,8,9],[1,2,3,4,5,6,7,8,9],[1,2,3,4,5,6,7,8,9],
   [3,4,5,6,7,8,9],[1,2,3,4,5,6,7,8,9],[1,2,3,4,5,6,7,8,9],[1,2,3,4,5,6,7,8,9],[1,2,4,5,6,7,8,9],[1,2,3,4,5,6,7,8,9],[1,2,3,4,5,6,7,8,9],[1,2,3,4,5,6,7,8,9],[1,2,3,4,5,6,7,8,9],
   [3,4,5,6,7,8,9],[1,2,3,4,5,6,7,8,9],[1,2,3,4,5,6,7,8,9],[1,2,3,4,5,6,7,8,9],[1,2,4,5,6,7,8,9],[1,2,3,4,5,6,7,8,9],[1,2,3,4,5,6,7,8,9],[1,2,3,4,5,6,7,8,9],[1,2,3,4,5,6,7,8,9]]
/-- State of bH after the row and column group passes of hidden_single. -/
def hB : Board := mkDoms
  [[2],[3],[1,4],[5],[6,7,8,9],[6,7,8,9],[6,7,8,9],[6,7,8,9],[6,7,8,9],
   [1,2,3,4,5,6,7,8,9],[1,2,3,4,5,6,7,8,9],[1,2,3,4,5,6,7,8,9],[1,2,3,4,5,6,7,8,9],[1,2,3,4,5,6,7,8,9],[1,2,3,4,5,6,7,8,9],[1,2,3,4,5,6,7,8,9],[1,2,3,4,5,6,7,8,9],[1,2,3,4,5,6,7,8,9],
   [1,2,3,4,5,6,7,8,9],[1,2,3,4,5,6,7,8,9],[1,2,3,4,5,6,7,8,9],[1,2,3,4,5,6,7,8,9],[1,2,3,4,5,6,7,8,9],[1,2,3,4,5,6,7,8,9],[1,2,3,4,5,6,7,8,9],[1,2,3,4,5,6,7,8,9],[1,2,3,4,5,6,7,8,9],
   [1,2,3,4,5,6,7,8,9],[1,2,3,4,5,6,7,8,9],[1,2,3,4,5,6,7,8,9],[1,2,3,4,5,6,7,8,9],[1,2,3,4,5,6,7,8,9],[1,2,3,4,5,6,7,8,9],[1,2,3,4,5,6,7,8,9],[1,2,3,4,5,6,7,8,9],[1,2,3,4,5,6,7,8,9],
   [1,2,3,4,5,6,7,8,9],[1,2,3,4,5,6,7,8,9],[1,2,3,4,5,6,7,8,9],[1,2,3,4,5,6,7,8,9],[1,2,3,4,5,6,7,8,9],[1,2,3,4,5,6,7,8,9],[1,2,3,4,5,6,7,8,9],[1,2,3,4,5,6,7,8,9],[1,2,3,4,5,6,7,8,9],
   [1,2,3,4,5,6,7,8,9],[1,2,3,4,5,6,7,8,9],[1,2,3,4,5,6,7,8,9],[1,2,3,4,5,6,7,8,9],[1,2,3,4,5,6,7,8,9],[1,2,3,4,5,6,7,8,9],[1,2,3,4,5,6,7,8,9],[1,2,3,4,5,6,7,8,9],[1,2,3,4,5,6,7,8,9],
   [1,2,3,4,5,6,7,8,9],[1,2,3,4,5,6,7,8,9],[1,2,3,4,5,6,7,8,9],[1,2,3,4,5,6,7,8,9],[1,2,3,4,5,6,7,8,9],[1,2,3,4,5,6,7,8,9],[1,2,3,4,5,6,7,8,9],[1,2,3,4,5,6,7,8,9],[1,2,3,4,5,6,7,8,9],
   [1,2,3,4,5,6,7,8,9],[1,2,3,4,5,6,7,8,9],[1,2,3,4,5,6,7,8,9],[1,2,3,4,5,6,7,8,9],[1,2,3,4,5,6,7,8,9],[1,2,3,4,5,6,7,8,9],[1,2,3,4,5,6,7,8,9],[1,2,3,4,5,6,7,8,9],[1,2,3,4,5,6,7,8,9],
   [1,2,3,4,5,6,7,8,9],[1,2,3,4,5,6,7,8,9],[1,2,3,4,5,6,7,8,9],[1,2,3,4,5,6,7,8,9],[1,2,3,4,5,6,7,8,9],[1,2,3,4,5,6,7,8,9],[1,2,3,4,5,6,7,8,9],[1,2,3,4,5,6,7,8,9],[1,2,3,4,5,6,7,8,9]]
/-- State of bH after one full hidden_single pass. -/
def hC : Board := mkDoms
  [[2],[3],[1,4],[5],[6,7,8,9],[6,7,8,9],[6,7,8,9],[6,7,8,9],[6,7,8,9],
   [1,2,3,4,5,6,7,8,9],[1,2,3,4,5,6,7,8,9],[1,2,3,4,5,6,7,8,9],[1,2,3,4,5,6,7,8,9],[1,2,3,4,5,6,7,8,9],[1,2,3,4,5,6,7,8,9],[1,2,3,4,5,6,7,8,9],[1,2,3,4,5,6,7,8,9],[1,2,3,4,5,6,7,8,9],
   [1,2,3,4,5,6,7,8,9],[1,2,3,4,5,6,7,8,9],[1,2,3,4,5,6,7,8,9],[1,2,3,4,5,6,7,8,9],[1,2,3,4,5,6,7,8,9],[1,2,3,4,5,6,7,8,9],[1,2,3,4,5,6,7,8,9],[1,2,3,4,5,6,7,8,9],[1,2,3,4,5,6,7,8,9],
   [1,2,3,4,5,6,7,8,9],[1,2,3,4,5,6,7,8,9],[1,2,3,4,5,6,7,8,9],[1,2,3,4,5,6,7,8,9],[1,2,3,4,5,6,7,8,9],[1,2,3,4,5,6,7,8,9],[1,2,3,4,5,6,7,8,9],[1,2,3,4,5,6,7,8,9],[1,2,3,4,5,6,7,8,9],
   [1,2,3,4,5,6,7,8,9],[1,2,3,4,5,6,7,8,9],[1,2,3,4,5,6,7,8,9],[1,2,3,4,5,6,7,8,9],[1,2,3,4,5,6,7,8,9],[1,2,3,4,5,6,7,8,9],[1,2,3,4,5,6,7,8,9],[1,2,3,4,5,6,7,8,9],[1,2,3,4,5,6,7,8,9],
   [1,2,3,4,5,6,7,8,9],[1,2,3,4,5,6,7,8,9],[1,2,3,4,5,6,7,8,9],[1,2,3,4,5,6,7,8,9],[1,2,3,4,5,6,7,8,9],[1,2,3,4,5,6,7,8,9],[1,2,3,4,5,6,7,8,9],[1,2,3,4,5,6,7,8,9],[1,2,3,4,5,6,7,8,9],
   [1,2,3,4,5,6,7,8,9],[1,2,3,4,5,6,7,8,9],[1,2,3,4,5,6,7,8,9],[1,2,3,4,5,6,7,8,9],[1,2,3,4,5,6,7,8,9],[1,2,3,4,5,6,7,8,9],[1,2,3,4,5,6,7,8,9],[1,2,3,4,5,6,7,8,9],[1,2,3,4,5,6,7,8,9],
   [1,2,3,4,5,6,7,8,9],[1,2,3,4,5,6,7,8,9],[1,2,3,4,5,6,7,8,9],[1,2,3,4,5,6,7,8,9],[1,2,3,4,5,6,7,8,9],[1,2,3,4,5,6,7,8,9],[1,2,3,4,5,6,7,8,9],[1,2,3,4,5,6,7,8,9],[1,2,3,4,5,6,7,8,9],
   [1,2,3,4,5,6,7,8,9],[1,2,3,4,5,6,7,8,9],[1,2,3,4,5,6,7,8,9],[1,2,3,4,5,6,7,8,9],[1,2,3,4,5,6,7,8,9],[1,2,3,4,5,6,7,8,9],[1,2,3,4,5,6,7,8,9],[1,2,3,4,5,6,7,8,9],[1,2,3,4,5,6,7,8,9]]
/-- State of hC after the row and column group passes of a second hidden_single pass. -/
def hE : Board := mkDoms
  [[2],[3],[1],[5],[6,7,8,9],[6,7,8,9],[6,7,8,9],[6,7,8,9],[6,7,8,9],
   [1,2,3,4,5,6,7,8,9],[1,2,3,4,5,6,7,8,9],[1,2,3,4,5,6,7,8,9],[1,2,3,4,5,6,7,8,9],[1,2,3,4,5,6,7,8,9],[1,2,3,4,5,6,7,8,9],[1,2,3,4,5,6,7,8,9],[1,2,3,4,5,6,7,8,9],[1,2,3,4,5,6,7,8,9],
   [1,2,3,4,5,6,7,8,9],[1,2,3,4,5,6,7,8,9],[1,2,3,4,5,6,7,8,9],[1,2,3,4,5,6,7,8,9],[1,2,3,4,5,6,7,8,9],[1,2,3,4,5,6,7,8,9],[1,2,3,4,5,6,7,8,9],[1,2,3,4,5,6,7,8,9],[1,2,3,4,5,6,7,8,9],
   [1,2,3,4,5,6,7,8,9],[1,2,3,4,5,6,7,8,9],[1,2,3,4,5,6,7,8,9],[1,2,3,4,5,6,7,8,9],[1,2,3,4,5,6,7,8,9],[1,2,3,4,5,6,7,8,9],[1,2,3,4,5,6,7,8,9],[1,2,3,4,5,6,7,8,9],[1,2,3,4,5,6,7,8,9],
   [1,2,3,4,5,6,7,8,9],[1,2,3,4,5,6,7,8,9],[1,2,3,4,5,6,7,8,9],[1,2,3,4,5,6,7,8,9],[1,2,3,4,5,6,7,8,9],[1,2,3,4,5,6,7,8,9],[1,2,3,4,5,6,7,8,9],[1,2,3,4,5,6,7,8,9],[1,2,3,4,5,6,7,8,9],
   [1,2,3,4,5,6,7,8,9],[1,2,3,4,5,6,7,8,9],[1,2,3,4,5,6,7,8,9],[1,2,3,4,5,6,7,8,9],[1,2,3,4,5,6,7,8,9],[1,2,3,4,5,6,7,8,9],[1,2,3,4,5,6,7,8,9],[1,2,3,4,5,6,7,8,9],[1,2,3,4,5,6,7,8,9],
   [1,2,3,4,5,6,7,8,9],[1,2,3,4,5,6,7,8,9],[1,2,3,4,5,6,7,8,9],[1,2,3,4,5,6,7,8,9],[1,2,3,4,5,6,7,8,9],[1,2,3,4,5,6,7,8,9],[1,2,3,4,5,6,7,8,9],[1,2,3,4,5,6,7,8,9],[1,2,3,4,5,6,7,8,9],
   [1,2,3,4,5,6,7,8,9],[1,2,3,4,5,6,7,8,9],[1,2,3,4,5,6,7,8,9],[1,2,3,4,5,6,7,8,9],[1,2,3,4,5,6,7,8,9],[1,2,3,4,5,6,7,8,9],[1,2,3,4,5,6,7,8,9],[1,2,3,4,5,6,7,8,9],[1,2,3,4,5,6,7,8,9],
   [1,2,3,4,5,6,7,8,9],[1,2,3,4,5,6,7,8,9],[1,2,3,4,5,6,7,8,9],[1,2,3,4,5,6,7,8,9],[1,2,3,4,5,6,7,8,9],[1,2,3,4,5,6,7,8,9],[1,2,3,4,5,6,7,8,9],[1,2,3,4,5,6,7,8,9],[1,2,3,4,5,6,7,8,9]]
/-- State of bH after two hidden_single passes. -/
def hF : Board := mkDoms
  [[2],[3],[1],[5],[6,7,8,9],[6,7,8,9],[6,7,8,9],[6,7,8,9],[6,7,8,9],
   [1,2,3,4,5,6,7,8,9],[1,2,3,4,5,6,7,8,9],[1,2,3,4,5,6,7,8,9],[1,2,3,4,5,6,7,8,9],[1,2,3,4,5,6,7,8,9],[1,2,3,4,5,6,7,8,9],[1,2,3,4,5,6,7,8,9],[1,2,3,4,5,6,7,8,9],[1,2,3,4,5,6,7,8,9],
   [1,2,3,4,5,6,7,8,9],[1,2,3,4,5,6,7,8,9],[1,2,3,4,5,6,7,8,9],[1,2,3,4,5,6,7,8,9],[1,2,3,4,5,6,7,8,9],[1,2,3,4,5,6,7,8,9],[1,2,3,4,5,6,7,8,9],[1,2,3,4,5,6,7,8,9],[1,2,3,4,5,6,7,8,9],
   [1,2,3,4,5,6,7,8,9],[1,2,3,4,5,6,7,8,9],[1,2,3,4,5,6,7,8,9],[1,2,3,4,5,6,7,8,9],[1,2,3,4,5,6,7,8,9],[1,2,3,4,5,6,7,8,9],[1,2,3,4,5,6,7,8,9],[1,2,3,4,5,6,7,8,9],[1,2,3,4,5,6,7,8,9],
   [1,2,3,4,5,6,7,8,9],[1,2,3,4,5,6,7,8,9],[1,2,3,4,5,6,7,8,9],[1,2,3,4,5,6,7,8,9],[1,2,3,4,5,6,7,8,9],[1,2,3,4,5,6,7,8,9],[1,2,3,4,5,6,7,8,9],[1,2,3,4,5,6,7,8,9],[1,2,3,4,5,6,7,8,9],
   [1,2,3,4,5,6,7,8,9],[1,2,3,4,5,6,7,8,9],[1,2,3,4,5,6,7,8,9],[1,2,3,4,5,6,7,8,9],[1,2,3,4,5,6,7,8,9],[1,2,3,4,5,6,7,8,9],[1,2,3,4,5,6,7,8,9],[1,2,3,4,5,6,7,8,9],[1,2,3,4,5,6,7,8,9],
   [1,2,3,4,5,6,7,8,9],[1,2,3,4,5,6,7,8,9],[1,2,3,4,5,6,7,8,9],[1,2,3,4,5,6,7,8,9],[1,2,3,4,5,6,7,8,9],[1,2,3,4,5,6,7,8,9],[1,2,3,4,5,6,7,8,9],[1,2,3,4,5,6,7,8,9],[1,2,3,4,5,6,7,8,9],
   [1,2,3,4,5,6,7,8,9],[1,2,3,4,5,6,7,8,9],[1,2,3,4,5,6,7,8,9],[1,2,3,4,5,6,7,8,9],[1,2,3,4,5,6,7,8,9],[1,2,3,4,5,6,7,8,9],[1,2,3,4,5,6,7,8,9],[1,2,3,4,5,6,7,8,9],[1,2,3,4,5,6,7,8,9],
   [1,2,3,4,5,6,7,8,9],[1,2,3,4,5,6,7,8,9],[1,2,3,4,5,6,7,8,9],[1,2,3,4,5,6,7,8,9],[1,2,3,4,5,6,7,8,9],[1,2,3,4,5,6,7,8,9],[1,2,3,4,5,6,7,8,9],[1,2,3,4,5,6,7,8,9],[1,2,3,4,5,6,7,8,9]]

/-! Basic facts about the board representation. -/

lemma idx_lt (c : Cell) : idx c < 81 := by
  have h1 := c.1.isLt; have h2 := c.2.isLt
  unfold idx; omega

lemma idx_inj {c c' : Cell} (h : idx c = idx c') : c = c' := by
  have h1 := c.1.isLt; have h2 := c.2.isLt
  have h3 := c'.1.isLt; have h4 := c'.2.isLt
  unfold idx at h
  have hr : c.1.val = c'.1.val := by omega
  have hc : c.2.val = c'.2.val := by omega
  exact Prod.ext (Fin.ext hr) (Fin.ext hc)

lemma length_setDom (b : Board) (c : Cell) (s : Domain) :
    (setDom b c s).length = b.length := List.length_set ..

lemma dom_setDom_self {b : Board} {c : Cell} (h : idx c < b.length) (s : Domain) :
    dom (setDom b c s) c = s := by
  unfold dom setDom
  rw [List.getD_eq_getElem?_getD, List.getElem?_set_self (by omega)]
  rfl

lemma dom_setDom_ne {c c' : Cell} (b : Board) (s : Domain) (h : c' ≠ c) :
    dom (setDom b c s) c' = dom b c' := by
  unfold dom setDom
  rw [List.getD_eq_getElem?_getD, List.getElem?_set_ne, ← List.getD_eq_getElem?_getD]
  exact fun he => h (idx_inj he.symm)

lemma dom_of_length_le {b : Board} {c : Cell} (h : b.length ≤ idx c) : dom b c = ∅ := by
  unfold dom
  rw [List.getD_eq_getElem?_getD, List.getElem?_eq_none (by omega)]
  rfl

lemma setDom_of_length_le {b : Board} {c : Cell} (h : b.length ≤ idx c) (s : Domain) :
    setDom b c s = b := List.set_eq_of_length_le h

lemma SubB.refl (b : Board) : SubB b b := ⟨rfl, fun _ => subset_rfl⟩

lemma SubB.trans {b₁ b₂ b₃ : Board} (h1 : SubB b₁ b₂) (h2 : SubB b₂ b₃) : SubB b₁ b₃ :=
  ⟨h1.1.trans h2.1, fun i => (h1.2 i).trans (h2.2 i)⟩

lemma SubB.dom_subset {b' b : Board} (h : SubB b' b) (c : Cell) : dom b' c ⊆ dom b c :=
  h.2 (idx c)

lemma getD_setDom (b : Board) (c : Cell) (s : Domain) (i : Nat) :
    (setDom b c s).getD i ∅ =
      if idx c = i ∧ idx c < b.length then s else b.getD i ∅ := by
  unfold setDom
  rw [List.getD_eq_getElem?_getD, List.getElem?_set, List.getD_eq_getElem?_getD]
  by_cases h1 : idx c = i
  · by_cases h2 : idx c < b.length <;> subst h1 <;>
      simp [h2, List.getElem?_eq_none, Nat.le_of_not_lt]
  · simp [h1]

lemma SubB.setDom {b : Board} {c : Cell} {s : Domain} (h : s ⊆ dom b c) :
    SubB (setDom b c s) b := by
  refine ⟨length_setDom .., fun i => ?_⟩
  rw [getD_setDom]
  by_cases h1 : idx c = i ∧ idx c < b.length
  · rw [if_pos h1]; exact h1.1 ▸ h
  · rw [if_neg h1]

lemma sum_getD_set (as : List Nat) (i : Nat) (x : Nat) (h : i < as.length) :
    (as.set i x).sum + as.getD i 0 = as.sum + x := by
  induction as generalizing i with
  | nil => simp at h
  | cons a l ih =>
    cases i with
    | zero => simp [List.set, List.getD]; omega
    | succ n =>
      have := ih n (by simpa using h)
      simp only [List.set, List.sum_cons, List.getD_cons_succ]
      omega

lemma map_card_setDom (b : Board) (c : Cell) (s : Domain) :
    (setDom b c s).map Finset.card = (b.map Finset.card).set (idx c) s.card := by
  unfold setDom
  rw [List.map_set]

lemma getD_map_card (b : Board) (i : Nat) :
    (b.map Finset.card).getD i 0 = (b.getD i ∅).card := by
  rw [List.getD_eq_getElem?_getD, List.getD_eq_getElem?_getD, List.getElem?_map]
  cases b[i]? <;> simp

lemma totalSize_setDom {b : Board} {c : Cell} (h : idx c < b.length) (s : Domain) :
    totalSize (setDom b c s) + (dom b c).card = totalSize b + s.card := by
  unfold totalSize
  rw [map_card_setDom]
  have := sum_getD_set (b.map Finset.card) (idx c) s.card (by simpa using h)
  rw [getD_map_card] at this
  exact this

lemma totalSize_mono {b' b : Board} (h : SubB b' b) : totalSize b' ≤ totalSize b := by
  obtain ⟨hl, hsub⟩ := h
  unfold totalSize
  induction b generalizing b' with
  | nil => rw [List.length_nil, List.length_eq_zero] at hl; simp [hl]
  | cons a l ih =>
    cases b' with
    | nil => simp at hl
    | cons a' l' =>
      simp only [List.map_cons, List.sum_cons]
      have h0 : a' ⊆ a := by have := hsub 0; simpa [List.getD] using this
      have hrest : ∀ i, l'.getD i ∅ ⊆ l.getD i ∅ := fun i => by
        have := hsub (i + 1); simpa [List.getD_cons_succ] using this
      have := @ih l' (by simpa using hl) hrest
      have hc := Finset.card_le_card h0
      omega

/-! Behaviour of a single arc revision. -/

lemma revise_eq (Xi Xj : Cell) (b : Board) :
    revise Xi Xj b =
      if keepSet Xi Xj b = dom b Xi then (false, b)
      else (true, setDom b Xi (keepSet Xi Xj b)) := rfl

lemma revise_false_iff (Xi Xj : Cell) (b : Board) :
    (revise Xi Xj b).1 = false ↔ keepSet Xi Xj b = dom b Xi := by
  rw [revise_eq]
  by_cases h : keepSet Xi Xj b = dom b Xi <;> simp [h]

lemma revise_snd_of_false {Xi Xj : Cell} {b : Board}
    (h : (revise Xi Xj b).1 = false) : (revise Xi Xj b).2 = b := by
  rw [revise_eq, if_pos ((revise_false_iff Xi Xj b).mp h)]

lemma revise_snd_of_true {Xi Xj : Cell} {b : Board}
    (h : (revise Xi Xj b).1 = true) : (revise Xi Xj b).2 = setDom b Xi (keepSet Xi Xj b) := by
  have hne : ¬ keepSet Xi Xj b = dom b Xi := by
    intro he
    rw [revise_eq, if_pos he] at h
    exact Bool.false_ne_true h
  rw [revise_eq, if_neg hne]

lemma keepSet_subset (Xi Xj : Cell) (b : Board) : keepSet Xi Xj b ⊆ dom b Xi :=
  Finset.filter_subset _ _

lemma revise_idx_lt {Xi Xj : Cell} {b : Board}
    (h : (revise Xi Xj b).1 = true) : idx Xi < b.length := by
  by_contra hle
  have hoob : dom b Xi = ∅ := dom_of_length_le (Nat.le_of_not_lt hle)
  have : keepSet Xi Xj b = dom b Xi := by
    apply Finset.eq_of_subset_of_card_le (keepSet_subset ..)
    simp [hoob]
  rw [revise_eq, if_pos this] at h
  exact Bool.false_ne_true h

lemma dom_revise_self {Xi Xj : Cell} {b : Board} :
    dom (revise Xi Xj b).2 Xi = keepSet Xi Xj b := by
  rcases h : (revise Xi Xj b).1 with _ | _
  · rw [revise_snd_of_false h, ← (revise_false_iff Xi Xj b).mp h]
  · rw [revise_snd_of_true h, dom_setDom_self (revise_idx_lt h)]

lemma dom_revise_ne {Xi Xj c : Cell} {b : Board} (h : c ≠ Xi) :
    dom (revise Xi Xj b).2 c = dom b c := by
  rcases hf : (revise Xi Xj b).1 with _ | _
  · rw [revise_snd_of_false hf]
  · rw [revise_snd_of_true hf, dom_setDom_ne _ _ h]

lemma revise_SubB (Xi Xj : Cell) (b : Board) : SubB (revise Xi Xj b).2 b := by
  rcases hf : (revise Xi Xj b).1 with _ | _
  · rw [revise_snd_of_false hf]; exact SubB.refl b
  · rw [revise_snd_of_true hf]; exact SubB.setDom (keepSet_subset ..)

lemma totalSize_revise_lt {Xi Xj : Cell} {b : Board}
    (h : (revise Xi Xj b).1 = true) :
    totalSize (revise Xi Xj b).2 < totalSize b := by
  have hlt := revise_idx_lt h
  have hne : keepSet Xi Xj b ≠ dom b Xi := by
    intro he
    rw [revise_eq, if_pos he] at h
    exact Bool.false_ne_true h
  have hcard : (keepSet Xi Xj b).card < (dom b Xi).card :=
    Finset.card_lt_card (Finset.ssubset_iff_subset_ne.mpr ⟨keepSet_subset .., hne⟩)
  have := totalSize_setDom hlt (keepSet Xi Xj b)
  rw [revise_snd_of_true h]
  omega

lemma mem_keepSet {Xi Xj : Cell} {b : Board} {x : Digit} :
    x ∈ keepSet Xi Xj b ↔ x ∈ dom b Xi ∧ ∃ y ∈ dom b Xj, x ≠ y := by
  unfold keepSet
  exact Finset.mem_filter

/-! The arc queues. -/

lemma mem_initArcs {a : Arc} : a ∈ initArcs ↔ GoodArc a := by
  obtain ⟨P, Q⟩ := a
  simp only [initArcs, GoodArc, List.mem_flatMap, List.mem_map, List.mem_filter,
    decide_eq_true_eq]
  constructor
  · rintro ⟨g, hg, Xi, hXi, Xj, ⟨hXj, hne⟩, heq⟩
    obtain ⟨h1, h2⟩ := Prod.mk.injEq .. ▸ heq
    subst h1; subst h2
    exact ⟨fun h => hne (h ▸ rfl), g, hg, hXi, hXj⟩
  · rintro ⟨hne, g, hg, hP, hQ⟩
    exact ⟨g, hg, P, hP, Q, ⟨hQ, fun h => hne (h ▸ rfl)⟩, rfl⟩

lemma mem_newArcs {P Q Xi Xj : Cell} :
    (P, Q) ∈ newArcs Xi Xj ↔
      Q = Xi ∧ P ≠ Xi ∧ P ≠ Xj ∧ ∃ g ∈ constraints, Xi ∈ g ∧ P ∈ g := by
  simp only [newArcs, List.mem_flatMap]
  constructor
  · rintro ⟨g, hg, hmem⟩
    by_cases hXi : Xi ∈ g
    · rw [if_pos hXi] at hmem
      simp only [List.mem_map, List.mem_filter, Bool.and_eq_true, decide_eq_true_eq] at hmem
      obtain ⟨Xk, ⟨hXk, h1, h2⟩, heq⟩ := hmem
      obtain ⟨e1, e2⟩ := Prod.mk.injEq .. ▸ heq
      subst e1; subst e2
      exact ⟨rfl, h1, h2, g, hg, hXi, hXk⟩
    · rw [if_neg hXi] at hmem
      exact absurd hmem (List.not_mem_nil _)
  · rintro ⟨hQ, h1, h2, g, hg, hXi, hP⟩
    subst hQ
    refine ⟨g, hg, ?_⟩
    rw [if_pos hXi]
    simp only [List.mem_map, List.mem_filter, Bool.and_eq_true, decide_eq_true_eq]
    exact ⟨P, ⟨hP, h1, h2⟩, rfl⟩

lemma newArcs_GoodArc {Xi Xj : Cell} : ∀ a ∈ newArcs Xi Xj, GoodArc a := by
  rintro ⟨P, Q⟩ hmem
  obtain ⟨hQ, h1, _, g, hg, hXi, hP⟩ := mem_newArcs.mp hmem
  subst hQ
  exact ⟨h1, g, hg, hP, hXi⟩

/-! Unfolding equations for the AC-3 loop. -/

lemma ac3Go_zero (q : List Arc) (b : Board) : ac3Go 0 q b = (true, b) := rfl

lemma ac3Go_nil (fuel : Nat) (b : Board) : ac3Go fuel [] b = (true, b) := by
  cases fuel <;> rfl

lemma ac3Go_cons (fuel : Nat) (Xi Xj : Cell) (rest : List Arc) (b : Board) :
    ac3Go (fuel + 1) ((Xi, Xj) :: rest) b =
      if (revise Xi Xj b).1 then
        if dom (revise Xi Xj b).2 Xi = ∅ then (false, (revise Xi Xj b).2)
        else ac3Go fuel (rest ++ newArcs Xi Xj) (revise Xi Xj b).2
      else ac3Go (fuel + 1) rest b := by
  show ac3Seg (ac3Go fuel) ((Xi, Xj) :: rest) b = _
  rcases hr : revise Xi Xj b with ⟨flag, b2⟩
  cases flag
  · simp only [ac3Seg, hr, Bool.false_eq_true, if_false]
    rfl
  · simp only [ac3Seg, hr, if_true]

/-! Every AC-3 run only shrinks the board. -/

lemma ac3Go_SubB : ∀ (fuel : Nat) (q : List Arc) (b : Board), SubB (ac3Go fuel q b).2 b := by
  intro fuel
  induction fuel with
  | zero => intro q b; exact SubB.refl b
  | succ fuel ih =>
    intro q
    induction q with
    | nil => intro b; rw [ac3Go_nil]; exact SubB.refl b
    | cons a rest ihq =>
      intro b
      obtain ⟨Xi, Xj⟩ := a
      rw [ac3Go_cons]
      split
      · split
        · exact revise_SubB ..
        · exact (ih ..).trans (revise_SubB ..)
      · exact ihq b

/-! An AC-3 run never removes a value of a constraint-satisfying
assignment drawn from the current domains. -/

lemma revise_adm {Xi Xj : Cell} {b : Board} {f : Cell → Digit}
    (hgood : GoodArc (Xi, Xj)) (hf : Satisfies f) (hadm : Admissible b f) :
    Admissible (revise Xi Xj b).2 f := by
  intro c
  by_cases hc : c = Xi
  · subst hc
    rw [dom_revise_self, mem_keepSet]
    obtain ⟨hne, g, hg, h1, h2⟩ := hgood
    refine ⟨hadm c, f Xj, hadm Xj, hf g hg c h1 Xj h2 hne⟩
  · rw [dom_revise_ne hc]
    exact hadm c

lemma ac3Go_adm {f : Cell → Digit} (hf : Satisfies f) :
    ∀ (fuel : Nat) (q : List Arc) (b : Board), (∀ a ∈ q, GoodArc a) →
      Admissible b f → Admissible (ac3Go fuel q b).2 f := by
  intro fuel
  induction fuel with
  | zero => intro q b _ hadm; exact hadm
  | succ fuel ih =>
    intro q
    induction q with
    | nil => intro b _ hadm; rw [ac3Go_nil]; exact hadm
    | cons a rest ihq =>
      intro b hq hadm
      obtain ⟨Xi, Xj⟩ := a
      have hgood : GoodArc (Xi, Xj) := hq _ (List.mem_cons_self ..)
      have hrest : ∀ a ∈ rest, GoodArc a := fun a ha => hq a (List.mem_cons_of_mem _ ha)
      rw [ac3Go_cons]
      split
      · split
        · exact revise_adm hgood hf hadm
        · refine ih _ _ (fun a ha => ?_) (revise_adm hgood hf hadm)
          rcases List.mem_append.mp ha with h | h
          · exact hrest a h
          · exact newArcs_GoodArc a h
      · exact ihq b hrest hadm

lemma ac3Go_true_of_adm {f : Cell → Digit} (hf : Satisfies f) :
    ∀ (fuel : Nat) (q : List Arc) (b : Board), (∀ a ∈ q, GoodArc a) →
      Admissible b f → (ac3Go fuel q b).1 = true := by
  intro fuel
  induction fuel with
  | zero => intro q b _ _; rfl
  | succ fuel ih =>
    intro q
    induction q with
    | nil => intro b _ _; rw [ac3Go_nil]
    | cons a rest ihq =>
      intro b hq hadm
      obtain ⟨Xi, Xj⟩ := a
      have hgood : GoodArc (Xi, Xj) := hq _ (List.mem_cons_self ..)
      have hrest : ∀ a ∈ rest, GoodArc a := fun a ha => hq a (List.mem_cons_of_mem _ ha)
      rw [ac3Go_cons]
      split
      · split
        · rename_i hempty
          exact absurd (hempty ▸ revise_adm hgood hf hadm Xi) (Finset.not_mem_empty _)
        · refine ih _ _ (fun a ha => ?_) (revise_adm hgood hf hadm)
          rcases List.mem_append.mp ha with h | h
          · exact hrest a h
          · exact newArcs_GoodArc a h
      · exact ihq b hrest hadm

/-! A False return of AC-3 happens exactly at, and exhibits, an emptied
domain; a True run from nowhere-empty domains keeps every domain
non-empty. -/

lemma ac3Go_false_empty : ∀ (fuel : Nat) (q : List Arc) (b : Board),
    (ac3Go fuel q b).1 = false → ∃ c, dom (ac3Go fuel q b).2 c = ∅ := by
  intro fuel
  induction fuel with
  | zero => intro q b h; exact absurd h (by simp [ac3Go_zero])
  | succ fuel ih =>
    intro q
    induction q with
    | nil => intro b h; exact absurd h (by simp [ac3Go_nil])
    | cons a rest ihq =>
      intro b h
      obtain ⟨Xi, Xj⟩ := a
      rw [ac3Go_cons] at h ⊢
      split at h
      · split at h
        · rename_i hempty
          rw [if_pos (by assumption), if_pos (by assumption)]
          exact ⟨Xi, hempty⟩
        · rw [if_pos (by assumption), if_neg (by assumption)]
          exact ih _ _ h
      · rw [if_neg (by assumption)]
        exact ihq b h

lemma ac3Go_true_nonempty : ∀ (fuel : Nat) (q : List Arc) (b : Board),
    (∀ c, dom b c ≠ ∅) → (ac3Go fuel q b).1 = true →
    ∀ c, dom (ac3Go fuel q b).2 c ≠ ∅ := by
  intro fuel
  induction fuel with
  | zero => intro q b hne _; exact hne
  | succ fuel ih =>
    intro q
    induction q with
    | nil => intro b hne _; rw [ac3Go_nil]; exact hne
    | cons a rest ihq =>
      intro b hne htrue
      obtain ⟨Xi, Xj⟩ := a
      rw [ac3Go_cons] at htrue ⊢
      split at htrue
      · split at htrue
        · exact absurd htrue (by simp)
        · rename_i hrev hempty
          rw [if_pos hrev, if_neg hempty]
          refine ih _ _ (fun c => ?_) htrue
          by_cases hc : c = Xi
          · subst hc; exact hempty
          · rw [dom_revise_ne hc]; exact hne c
      · rw [if_neg (by assumption)]
        exact ihq b hne htrue

/-! A True AC-3 run reaches arc consistency on every same-group arc: the
worklist invariant is that arcs outside the queue are already consistent,
and a revision of (Xi, Xj) re-enqueues every arc it may break except
(Xj, Xi), whose supports the revision provably never removes. -/

lemma revise_false_consistent {Xi Xj : Cell} {b : Board}
    (h : (revise Xi Xj b).1 = false) : arcConsistent b Xi Xj := by
  have hk := (revise_false_iff Xi Xj b).mp h
  intro x hx
  have := Finset.filter_eq_self.mp hk x hx
  exact this

lemma ac3Go_consistent : ∀ (fuel : Nat) (q : List Arc) (b : Board),
    totalSize b < fuel →
    (∀ a ∈ q, GoodArc a) →
    (∀ P Q, GoodArc (P, Q) → (P, Q) ∉ q → arcConsistent b P Q) →
    (ac3Go fuel q b).1 = true →
    ∀ P Q, GoodArc (P, Q) → arcConsistent (ac3Go fuel q b).2 P Q := by
  intro fuel
  induction fuel with
  | zero => intro q b hts; omega
  | succ fuel ih =>
    intro q
    induction q with
    | nil =>
      intro b _ _ hinv _ P Q hgood
      rw [ac3Go_nil]
      exact hinv P Q hgood (List.not_mem_nil _)
    | cons a rest ihq =>
      intro b hts hq hinv htrue P Q hgood
      obtain ⟨Xi, Xj⟩ := a
      have hgoodhead : GoodArc (Xi, Xj) := hq _ (List.mem_cons_self ..)
      have hrest : ∀ a ∈ rest, GoodArc a := fun a ha => hq a (List.mem_cons_of_mem _ ha)
      rw [ac3Go_cons] at htrue ⊢
      split at htrue
      · split at htrue
        · exact absurd htrue (by simp)
        · rename_i hrev hne
          rw [if_pos hrev, if_neg hne]
          have hts2 : totalSize (revise Xi Xj b).2 < fuel := by
            have := totalSize_revise_lt hrev
            omega
          have harcs2 : ∀ a ∈ rest ++ newArcs Xi Xj, GoodArc a := by
            intro a ha
            rcases List.mem_append.mp ha with h | h
            · exact hrest a h
            · exact newArcs_GoodArc a h
          refine ih _ _ hts2 harcs2 ?_ htrue P Q hgood
          -- re-establish the invariant on the extended queue for the revised board
          intro P' Q' hgood' hnotin
          have hnotrest : (P', Q') ∉ rest := fun h => hnotin (List.mem_append.mpr (Or.inl h))
          have hnotnew : (P', Q') ∉ newArcs Xi Xj := fun h => hnotin (List.mem_append.mpr (Or.inr h))
          by_cases hQXi : Q' = Xi
          · by_cases hPXj : P' = Xj
            · rw [hQXi, hPXj] at hgood' hnotrest ⊢
              -- the skipped arc (Xj, Xi): its supports survive the revision
              have hXiXj : Xi ≠ Xj := hgoodhead.1
              have hnotq : (Xj, Xi) ∉ (Xi, Xj) :: rest := by
                intro hmem
                rcases List.mem_cons.mp hmem with h | h
                · exact hXiXj (congrArg Prod.snd h)
                · exact hnotrest h
              have hprev : arcConsistent b Xj Xi := hinv Xj Xi hgood' hnotq
              intro u hu
              rw [dom_revise_ne (fun h => hXiXj h.symm)] at hu
              obtain ⟨v, hv, hvu⟩ := hprev u hu
              refine ⟨v, ?_, hvu⟩
              rw [dom_revise_self, mem_keepSet]
              exact ⟨hv, u, hu, fun h => hvu h.symm⟩
            · -- every other incoming arc of Xi was just re-enqueued
              exfalso
              rw [hQXi] at hgood' hnotnew
              obtain ⟨hne', g, hg, hP', hXi'⟩ := hgood'
              exact hnotnew (mem_newArcs.mpr ⟨rfl, hne', hPXj, g, hg, hXi', hP'⟩)
          · -- arcs not pointing into Xi: their target domain is unchanged
            by_cases hhead : P' = Xi ∧ Q' = Xj
            · obtain ⟨h1, h2⟩ := hhead
              rw [h1, h2]
              -- the arc just revised is consistent by construction
              intro x hx
              rw [dom_revise_self, mem_keepSet] at hx
              rw [dom_revise_ne (Ne.symm hgoodhead.1)]
              exact hx.2
            · have hnotq : (P', Q') ∉ (Xi, Xj) :: rest := by
                intro hmem
                rcases List.mem_cons.mp hmem with h | h
                · exact hhead ⟨congrArg Prod.fst h, congrArg Prod.snd h⟩
                · exact hnotrest h
              have hprev : arcConsistent b P' Q' := hinv P' Q' hgood' hnotq
              intro x hx
              have hxb : x ∈ dom b P' := by
                by_cases hPXi : P' = Xi
                · rw [hPXi] at hx
                  rw [hPXi]
                  rw [dom_revise_self] at hx
                  exact keepSet_subset _ _ _ hx
                · rwa [dom_revise_ne hPXi] at hx
              rw [dom_revise_ne hQXi]
              exact hprev x hxb
      · rename_i hrev
        rw [if_neg hrev]
        refine ihq b hts hrest ?_ htrue P Q hgood
        intro P' Q' hgood' hnotin
        by_cases hhead : P' = Xi ∧ Q' = Xj
        · obtain ⟨h1, h2⟩ := hhead
          subst h1; subst h2
          exact revise_false_consistent (Bool.not_eq_true _ ▸ hrev)
        · refine hinv P' Q' hgood' ?_
          intro hmem
          rcases List.mem_cons.mp hmem with h | h
          · exact hhead ⟨congrArg Prod.fst h, congrArg Prod.snd h⟩
          · exact hnotin h

/-! On a board whose queued arcs are all consistent, the loop drains the
queue without touching anything and returns True with the same board. -/

lemma ac3Go_run_consistent : ∀ (fuel : Nat) (q : List Arc) (b : Board),
    (∀ a ∈ q, arcConsistent b a.1 a.2) → ac3Go fuel q b = (true, b) := by
  intro fuel q b
  cases fuel with
  | zero => intro _; rfl
  | succ fuel =>
    induction q with
    | nil => intro _; rw [ac3Go_nil]
    | cons a rest ihq =>
      intro hcons
      obtain ⟨Xi, Xj⟩ := a
      have hfalse : (revise Xi Xj b).1 = false := by
        rw [revise_false_iff]
        apply Finset.filter_eq_self.mpr
        exact hcons (Xi, Xj) (List.mem_cons_self ..)
      rw [ac3Go_cons, hfalse]
      simp only [Bool.false_eq_true, if_false]
      exact ihq fun a ha => hcons a (List.mem_cons_of_mem _ ha)

/-! The loop result does not depend on the fuel once the fuel exceeds the
summed domain sizes: the Python while-loop terminates within that many
shrink events. -/

lemma ac3Go_fuel_irrel_aux : ∀ (n : Nat) (b : Board) (fuel₁ fuel₂ : Nat) (q : List Arc),
    totalSize b ≤ n → totalSize b < fuel₁ → totalSize b < fuel₂ →
    ac3Go fuel₁ q b = ac3Go fuel₂ q b := by
  intro n
  induction n with
  | zero =>
    intro b fuel₁ fuel₂ q hn h1 h2
    obtain ⟨f₁, rfl⟩ : ∃ f, fuel₁ = f + 1 := ⟨fuel₁ - 1, by omega⟩
    obtain ⟨f₂, rfl⟩ : ∃ f, fuel₂ = f + 1 := ⟨fuel₂ - 1, by omega⟩
    induction q with
    | nil => rw [ac3Go_nil, ac3Go_nil]
    | cons a rest ihq =>
      obtain ⟨Xi, Xj⟩ := a
      rw [ac3Go_cons, ac3Go_cons]
      rcases hr : (revise Xi Xj b).1 with _ | _
      · simp only [Bool.false_eq_true, if_false]
        exact ihq
      · have := totalSize_revise_lt hr
        omega
  | succ n ih =>
    intro b fuel₁ fuel₂ q hn h1 h2
    obtain ⟨f₁, rfl⟩ : ∃ f, fuel₁ = f + 1 := ⟨fuel₁ - 1, by omega⟩
    obtain ⟨f₂, rfl⟩ : ∃ f, fuel₂ = f + 1 := ⟨fuel₂ - 1, by omega⟩
    induction q with
    | nil => rw [ac3Go_nil, ac3Go_nil]
    | cons a rest ihq =>
      obtain ⟨Xi, Xj⟩ := a
      rw [ac3Go_cons, ac3Go_cons]
      rcases hr : (revise Xi Xj b).1 with _ | _
      · simp only [Bool.false_eq_true, if_false]
        exact ihq
      · simp only [if_true]
        split
        · rfl
        · have hlt := totalSize_revise_lt hr
          exact ih _ f₁ f₂ _ (by omega) (by omega) (by omega)

lemma ac3Go_fuel_irrel {b : Board} {fuel₁ fuel₂ : Nat} (q : List Arc)
    (h1 : totalSize b < fuel₁) (h2 : totalSize b < fuel₂) :
    ac3Go fuel₁ q b = ac3Go fuel₂ q b :=
  ac3Go_fuel_irrel_aux (totalSize b) b fuel₁ fuel₂ q (Nat.le_refl _) h1 h2

/-! Facts about ac3 itself, assembled from the loop lemmas. -/

lemma ac3_SubB (b : Board) : SubB (ac3 b).2 b := ac3Go_SubB ..

lemma initArcs_GoodArc : ∀ a ∈ initArcs, GoodArc a := fun _ h => mem_initArcs.mp h

lemma ac3_adm {b : Board} {f : Cell → Digit} (hf : Satisfies f)
    (hadm : Admissible b f) : Admissible (ac3 b).2 f :=
  ac3Go_adm hf _ _ _ initArcs_GoodArc hadm

lemma ac3_true_of_adm {b : Board} {f : Cell → Digit} (hf : Satisfies f)
    (hadm : Admissible b f) : (ac3 b).1 = true :=
  ac3Go_true_of_adm hf _ _ _ initArcs_GoodArc hadm

lemma ac3_true_consistent {b : Board} (h : (ac3 b).1 = true) :
    ∀ P Q, GoodArc (P, Q) → arcConsistent (ac3 b).2 P Q :=
  ac3Go_consistent _ _ _ (Nat.lt_succ_self _) initArcs_GoodArc
    (fun _ _ hgood hnot => absurd (mem_initArcs.mpr hgood) hnot) h

lemma ac3_of_consistent {b : Board}
    (h : ∀ P Q, GoodArc (P, Q) → arcConsistent b P Q) : ac3 b = (true, b) :=
  ac3Go_run_consistent _ _ _ fun a ha => h a.1 a.2 (mem_initArcs.mp ha)

/-! Variable selection: mrv, degree_heuristic and the or-expression. -/

lemma minByFirst_none_iff {f : Cell → Nat} {l : List Cell} :
    minByFirst f l = none ↔ l = [] := by
  cases l <;> simp [minByFirst]

lemma maxByFirst_none_iff {f : Cell → Nat} {l : List Cell} :
    maxByFirst f l = none ↔ l = [] := by
  cases l <;> simp [maxByFirst]

lemma foldl_best_mem (p : Cell → Cell → Cell)
    (hp : ∀ x y, p x y = x ∨ p x y = y) :
    ∀ (l : List Cell) (acc : Cell), l.foldl p acc = acc ∨ l.foldl p acc ∈ l := by
  intro l
  induction l with
  | nil => intro acc; exact Or.inl rfl
  | cons x xs ih =>
    intro acc
    rcases ih (p acc x) with h | h
    · rcases hp acc x with hx | hx
      · exact Or.inl (by rw [List.foldl_cons, h, hx])
      · refine Or.inr (List.mem_cons.mpr (Or.inl ?_))
        rw [List.foldl_cons, h, hx]
    · exact Or.inr (List.mem_cons.mpr (Or.inr (by rwa [List.foldl_cons])))

lemma minByFirst_mem {f : Cell → Nat} {l : List Cell} {v : Cell}
    (h : minByFirst f l = some v) : v ∈ l := by
  cases l with
  | nil => exact absurd h (by simp [minByFirst])
  | cons c cs =>
    have hv : cs.foldl (fun best x => if f x < f best then x else best) c = v := by
      simpa [minByFirst] using h
    have := foldl_best_mem (fun best x => if f x < f best then x else best)
      (fun x y => by by_cases hxy : f y < f x <;> simp [hxy]) cs c
    rw [hv] at this
    rcases this with h' | h'
    · exact List.mem_cons.mpr (Or.inl h')
    · exact List.mem_cons.mpr (Or.inr h')

lemma mem_cells (c : Cell) : c ∈ cells := by
  obtain ⟨r, k⟩ := c
  simp only [cells, List.mem_flatMap, List.mem_map]
  exact ⟨r, List.mem_finRange r, k, List.mem_finRange k, rfl⟩

lemma mem_unassignedCells {b : Board} {c : Cell} :
    c ∈ unassignedCells b ↔ 1 < (dom b c).card := by
  simp [unassignedCells, List.mem_filter, mem_cells]

lemma mrv_none_iff {b : Board} : mrv b = none ↔ unassignedCells b = [] :=
  minByFirst_none_iff

lemma degree_none_iff {b : Board} : degree_heuristic b = none ↔ unassignedCells b = [] :=
  maxByFirst_none_iff

lemma select_eq_mrv (b : Board) : select b = mrv b := by
  unfold select
  rcases h : mrv b with _ | v
  · rw [degree_none_iff.mpr (mrv_none_iff.mp h)]
  · rfl

lemma mrv_card {b : Board} {v : Cell} (h : mrv b = some v) : 1 < (dom b v).card :=
  mem_unassignedCells.mp (minByFirst_mem h)

lemma mrv_isSome_of_unassigned {b : Board} {c : Cell} (h : 1 < (dom b c).card) :
    ∃ v, mrv b = some v := by
  rcases hm : mrv b with _ | v
  · have := mrv_none_iff.mp hm
    have hc : c ∈ unassignedCells b := mem_unassignedCells.mpr h
    rw [this] at hc
    exact absurd hc (List.not_mem_nil _)
  · exact ⟨v, rfl⟩

/-! The completeness check. -/

lemma complete_iff {b : Board} :
    is_board_complete b = true ↔ ∀ c, (dom b c).card = 1 := by
  unfold is_board_complete
  rw [List.all_eq_true]
  constructor
  · intro h c
    have := h c (mem_cells c)
    simpa using this
  · intro h c _
    simpa using h c

lemma incomplete_iff {b : Board} :
    is_board_complete b = false ↔ ∃ c, (dom b c).card ≠ 1 := by
  constructor
  · intro h
    by_contra hall
    push_neg at hall
    rw [complete_iff.mpr hall] at h
    exact absurd h (by simp)
  · rintro ⟨c, hc⟩
    rcases hb : is_board_complete b with _ | _
    · rfl
    · exact absurd (complete_iff.mp hb c) hc

/-! Structure of the 27 groups, and the step from a complete
arc-consistent board to a fully valid one. -/

lemma constraints_groups : ∀ g ∈ constraints, g.Nodup ∧ g.length = 9 := by decide

lemma singVal_singleton : ∀ a : Digit, singVal {a} = a := by decide

lemma singVal_spec {s : Domain} (h : s.card = 1) : s = {singVal s} := by
  obtain ⟨a, ha⟩ := Finset.card_eq_one.mp h
  rw [ha, singVal_singleton]

lemma complete_consistent_valid {b : Board}
    (hc : ∀ c, (dom b c).card = 1)
    (hac : ∀ P Q, GoodArc (P, Q) → arcConsistent b P Q) : GroupsValid b := by
  intro g hg
  have hdist : ∀ c₁ ∈ g, ∀ c₂ ∈ g, c₁ ≠ c₂ → dom b c₁ ≠ dom b c₂ := by
    intro c₁ h₁ c₂ h₂ hne heq
    have hcons : arcConsistent b c₁ c₂ := hac c₁ c₂ ⟨hne, g, hg, h₁, h₂⟩
    obtain ⟨a₁, ha₁⟩ := Finset.card_eq_one.mp (hc c₁)
    obtain ⟨y, hy, hxy⟩ := hcons a₁ (ha₁ ▸ Finset.mem_singleton_self a₁)
    rw [← heq, ha₁, Finset.mem_singleton] at hy
    exact hxy hy.symm
  refine ⟨hdist, ?_⟩
  -- pigeonhole: nine pairwise different singleton values over nine digits
  have hnodup := (constraints_groups g hg).1
  have hlen := (constraints_groups g hg).2
  have hcardg : g.toFinset.card = 9 := by
    rw [List.toFinset_card_of_nodup hnodup, hlen]
  have hinj : Set.InjOn (fun c => singVal (dom b c)) g.toFinset := by
    intro c₁ h₁ c₂ h₂ heq
    by_contra hne
    apply hdist c₁ (List.mem_toFinset.mp h₁) c₂ (List.mem_toFinset.mp h₂) hne
    rw [singVal_spec (hc c₁), singVal_spec (hc c₂)]
    simpa using heq
  have hcardim : (g.toFinset.image fun c => singVal (dom b c)).card = 9 := by
    rw [Finset.card_image_of_injOn hinj, hcardg]
  have huniv : g.toFinset.image (fun c => singVal (dom b c)) = Finset.univ :=
    Finset.eq_univ_of_card _ (by rw [hcardim]; rfl)
  intro d
  have hd : d ∈ g.toFinset.image fun c => singVal (dom b c) := by
    rw [huniv]; exact Finset.mem_univ d
  obtain ⟨c, hcg, hcd⟩ := Finset.mem_image.mp hd
  exact ⟨c, List.mem_toFinset.mp hcg, by rw [singVal_spec (hc c), hcd]⟩

lemma valid_satisfiable {b : Board}
    (hc : ∀ c, (dom b c).card = 1) (hv : GroupsValid b) : Satisfiable b := by
  refine ⟨fun c => singVal (dom b c), fun c => ?_, ?_⟩
  · rw [singVal_spec (hc c)]
    exact Finset.mem_singleton_self _
  · intro g hg c₁ h₁ c₂ h₂ hne heq
    apply (hv g hg).1 c₁ h₁ c₂ h₂ hne
    have heq' : singVal (dom b c₁) = singVal (dom b c₂) := heq
    rw [singVal_spec (hc c₁), singVal_spec (hc c₂), heq']

lemma adm_of_SubB {b' b : Board} {f : Cell → Digit} (hs : SubB b' b)
    (hadm : Admissible b' f) : Admissible b f :=
  fun c => hs.dom_subset c (hadm c)

lemma satisfiable_of_SubB {b' b : Board} (hs : SubB b' b)
    (hsat : Satisfiable b') : Satisfiable b := by
  obtain ⟨f, hadm, hf⟩ := hsat
  exact ⟨f, adm_of_SubB hs hadm, hf⟩

/-! The candidate loop of solve. -/

lemma mem_domList {s : Domain} {v : Digit} : v ∈ domList s ↔ v ∈ s := by
  simp [domList, digitsList, List.mem_filter, List.mem_finRange]

lemma tryValues_nil (next : Board → Option Board) (b : Board) (var : Cell) :
    tryValues next b var [] = none := rfl

lemma tryValues_cons (next : Board → Option Board) (b : Board) (var : Cell)
    (v : Digit) (vs : List Digit) :
    tryValues next b var (v :: vs) =
      if (ac3 (setDom b var {v})).1 then
        match next (ac3 (setDom b var {v})).2 with
        | some sol => some sol
        | none => tryValues next b var vs
      else tryValues next b var vs := by
  rcases h : ac3 (setDom b var {v}) with ⟨flag, b3⟩
  cases flag <;> simp [tryValues, h]

lemma tryValues_none_of {next : Board → Option Board} {b : Board} {var : Cell}
    {vs : List Digit}
    (h : ∀ v ∈ vs, (ac3 (setDom b var {v})).1 = true →
      next (ac3 (setDom b var {v})).2 = none) :
    tryValues next b var vs = none := by
  induction vs with
  | nil => rfl
  | cons v vs ih =>
    rw [tryValues_cons]
    rcases hr : (ac3 (setDom b var {v})).1 with _ | _
    · simp only [Bool.false_eq_true, if_false]
      exact ih fun w hw => h w (List.mem_cons_of_mem _ hw)
    · simp only [if_true]
      rw [h v (List.mem_cons_self ..) hr]
      exact ih fun w hw => h w (List.mem_cons_of_mem _ hw)

lemma tryValues_some {next : Board → Option Board} {b : Board} {var : Cell}
    {vs : List Digit} {sol : Board} (h : tryValues next b var vs = some sol) :
    ∃ v ∈ vs, (ac3 (setDom b var {v})).1 = true ∧
      next (ac3 (setDom b var {v})).2 = some sol := by
  induction vs with
  | nil => exact absurd h (by simp [tryValues_nil])
  | cons v vs ih =>
    rw [tryValues_cons] at h
    rcases hr : (ac3 (setDom b var {v})).1 with _ | _
    · rw [hr] at h
      simp only [Bool.false_eq_true, if_false] at h
      obtain ⟨w, hw, h1, h2⟩ := ih h
      exact ⟨w, List.mem_cons_of_mem _ hw, h1, h2⟩
    · rw [hr] at h
      simp only [if_true] at h
      rcases hn : next (ac3 (setDom b var {v})).2 with _ | sol'
      · rw [hn] at h
        obtain ⟨w, hw, h1, h2⟩ := ih h
        exact ⟨w, List.mem_cons_of_mem _ hw, h1, h2⟩
      · rw [hn] at h
        exact ⟨v, List.mem_cons_self .., hr, hn.trans h⟩

lemma tryValues_isSome (next : Board → Option Board) (b : Board) (var : Cell)
    {vs : List Digit}
    (h : ∃ v ∈ vs, (ac3 (setDom b var {v})).1 = true ∧
      (next (ac3 (setDom b var {v})).2).isSome = true) :
    (tryValues next b var vs).isSome = true := by
  induction vs with
  | nil => obtain ⟨v, hv, _⟩ := h; exact absurd hv (List.not_mem_nil _)
  | cons v vs ih =>
    rw [tryValues_cons]
    obtain ⟨w, hw, h1, h2⟩ := h
    rcases List.mem_cons.mp hw with rfl | hw'
    · rw [h1]
      simp only [if_true]
      rcases hn : next (ac3 (setDom b var {w})).2 with _ | sol
      · rw [hn] at h2; exact absurd h2 (by simp)
      · simp
    · rcases hr : (ac3 (setDom b var {v})).1 with _ | _
      · simp only [Bool.false_eq_true, if_false]
        exact ih ⟨w, hw', h1, h2⟩
      · simp only [if_true]
        rcases hn : next (ac3 (setDom b var {v})).2 with _ | sol
        · exact ih ⟨w, hw', h1, h2⟩
        · simp

lemma tryValues_congr {next next' : Board → Option Board} {b : Board} {var : Cell}
    {vs : List Digit}
    (h : ∀ v ∈ vs, next (ac3 (setDom b var {v})).2 = next' (ac3 (setDom b var {v})).2) :
    tryValues next b var vs = tryValues next' b var vs := by
  induction vs with
  | nil => rfl
  | cons v vs ih =>
    rw [tryValues_cons, tryValues_cons, h v (List.mem_cons_self ..)]
    rw [ih fun w hw => h w (List.mem_cons_of_mem _ hw)]

/-! Unfolding equations and measure facts for solve. -/

lemma solveGo_zero (b : Board) : solveGo 0 b = none := rfl

lemma solveGo_succ (fuel : Nat) (b : Board) :
    solveGo (fuel + 1) b =
      if is_board_complete b then some b
      else
        match select b with
        | none => none
        | some var => tryValues (solveGo fuel) b var (domList (dom b var)) := rfl

lemma card_dom_le_totalSize (b : Board) (c : Cell) :
    (dom b c).card ≤ totalSize b := by
  unfold dom totalSize
  generalize idx c = i
  induction b generalizing i with
  | nil => simp [List.getD]
  | cons a l ih =>
    cases i with
    | zero => simp [List.getD]
    | succ n =>
      simp only [List.getD_cons_succ, List.map_cons, List.sum_cons]
      exact (ih n).trans (Nat.le_add_left _ _)

lemma idx_lt_length_of_dom_nonempty {b : Board} {c : Cell}
    (h : dom b c ≠ ∅) : idx c < b.length := by
  by_contra hle
  exact h (dom_of_length_le (Nat.le_of_not_lt hle))

lemma branch_ts_lt {b : Board} {var : Cell} (v : Digit)
    (hcard : 1 < (dom b var).card) :
    totalSize (ac3 (setDom b var {v})).2 < totalSize b := by
  have hne : dom b var ≠ ∅ := by
    intro h
    rw [h] at hcard
    simp at hcard
  have hlt := idx_lt_length_of_dom_nonempty hne
  have hts := totalSize_setDom hlt {v}
  have hsub := totalSize_mono (ac3_SubB (setDom b var {v}))
  have hc1 : ({v} : Domain).card = 1 := Finset.card_singleton v
  omega

lemma branch_SubB {b : Board} {var : Cell} {v : Digit} (hv : v ∈ dom b var) :
    SubB (ac3 (setDom b var {v})).2 b :=
  (ac3_SubB _).trans (SubB.setDom (Finset.singleton_subset_iff.mpr hv))

lemma adm_setDom_singleton {b : Board} {var : Cell} {f : Cell → Digit}
    (hadm : Admissible b f) (hlt : idx var < b.length) :
    Admissible (setDom b var {f var}) f := by
  intro c
  by_cases hc : c = var
  · subst hc
    rw [dom_setDom_self hlt]
    exact Finset.mem_singleton_self _
  · rw [dom_setDom_ne _ _ hc]
    exact hadm c

/-! The solve recursion returns the same answer for any sufficient fuel:
the Python recursion terminates within totalSize levels. -/

lemma solveGo_fuel_irrel_aux : ∀ (n : Nat) (b : Board) (fuel₁ fuel₂ : Nat),
    totalSize b ≤ n → totalSize b < fuel₁ → totalSize b < fuel₂ →
    solveGo fuel₁ b = solveGo fuel₂ b := by
  intro n
  induction n with
  | zero =>
    intro b fuel₁ fuel₂ hn h1 h2
    obtain ⟨f₁, rfl⟩ : ∃ f, fuel₁ = f + 1 := ⟨fuel₁ - 1, by omega⟩
    obtain ⟨f₂, rfl⟩ : ∃ f, fuel₂ = f + 1 := ⟨fuel₂ - 1, by omega⟩
    rw [solveGo_succ, solveGo_succ]
    split
    · rfl
    · rcases hsel : select b with _ | var
      · rfl
      · have hcard := mrv_card (select_eq_mrv b ▸ hsel)
        have := card_dom_le_totalSize b var
        omega
  | succ n ih =>
    intro b fuel₁ fuel₂ hn h1 h2
    obtain ⟨f₁, rfl⟩ : ∃ f, fuel₁ = f + 1 := ⟨fuel₁ - 1, by omega⟩
    obtain ⟨f₂, rfl⟩ : ∃ f, fuel₂ = f + 1 := ⟨fuel₂ - 1, by omega⟩
    rw [solveGo_succ, solveGo_succ]
    split
    · rfl
    · rcases hsel : select b with _ | var
      · rfl
      · have hcard := mrv_card (select_eq_mrv b ▸ hsel)
        refine tryValues_congr fun v _ => ?_
        have hlt := branch_ts_lt v hcard
        exact ih _ f₁ f₂ (by omega) (by omega) (by omega)

lemma solveGo_eq_solve {b : Board} {fuel : Nat} (h : totalSize b < fuel) :
    solveGo fuel b = solve b :=
  solveGo_fuel_irrel_aux (totalSize b) b fuel _ (Nat.le_refl _) h (Nat.lt_succ_self _)

/-! Results of the backtracking search. -/

lemma solveGo_some_complete : ∀ (fuel : Nat) (b b' : Board), totalSize b < fuel →
    solveGo fuel b = some b' → is_board_complete b' = true := by
  intro fuel
  induction fuel with
  | zero => intro b b' h; omega
  | succ fuel ih =>
    intro b b' hts hsol
    rw [solveGo_succ] at hsol
    split at hsol
    · cases hsol
      assumption
    · rcases hsel : select b with _ | var
      · rw [hsel] at hsol; cases hsol
      · rw [hsel] at hsol
        have hcard := mrv_card (select_eq_mrv b ▸ hsel)
        obtain ⟨v, _, _, hnext⟩ := tryValues_some hsol
        have hlt := branch_ts_lt v hcard
        exact ih _ _ (by omega) hnext

lemma solveGo_isSome_of_sat : ∀ (fuel : Nat) (b : Board), totalSize b < fuel →
    Satisfiable b → ∃ b', solveGo fuel b = some b' := by
  intro fuel
  induction fuel with
  | zero => intro b h; omega
  | succ fuel ih =>
    intro b hts hsat
    rw [solveGo_succ]
    rcases hcomp : is_board_complete b with _ | _
    · simp only [Bool.false_eq_true, if_false]
      obtain ⟨f, hadm, hf⟩ := hsat
      obtain ⟨c, hc⟩ := incomplete_iff.mp hcomp
      have hpos : 0 < (dom b c).card := Finset.card_pos.mpr ⟨f c, hadm c⟩
      have hc2 : 1 < (dom b c).card := by omega
      obtain ⟨var, hvar⟩ := mrv_isSome_of_unassigned hc2
      rw [show select b = some var from (select_eq_mrv b).trans hvar]
      have hcard := mrv_card hvar
      have hvne : dom b var ≠ ∅ := by
        intro h
        rw [h] at hcard
        simp at hcard
      have hlt := idx_lt_length_of_dom_nonempty hvne
      have hadm2 : Admissible (setDom b var {f var}) f := adm_setDom_singleton hadm hlt
      have hac3 : (ac3 (setDom b var {f var})).1 = true := ac3_true_of_adm hf hadm2
      have hadm3 : Admissible (ac3 (setDom b var {f var})).2 f := ac3_adm hf hadm2
      have hsat3 : Satisfiable (ac3 (setDom b var {f var})).2 := ⟨f, hadm3, hf⟩
      have hlt3 := branch_ts_lt (f var) hcard
      obtain ⟨b'', hb''⟩ := ih _ (by omega) hsat3
      have hmem : f var ∈ domList (dom b var) :=
        mem_domList.mpr (hadm var)
      have := tryValues_isSome (solveGo fuel) b var
        ⟨f var, hmem, hac3, by rw [hb'']; rfl⟩
      exact Option.isSome_iff_exists.mp this
    · exact ⟨b, by simp⟩

lemma solveGo_none_of_unsat : ∀ (fuel : Nat) (b : Board), totalSize b < fuel →
    ¬ Satisfiable b → is_board_complete b = false → solveGo fuel b = none := by
  intro fuel
  induction fuel with
  | zero => intro b h; omega
  | succ fuel ih =>
    intro b hts hunsat hcomp
    rw [solveGo_succ, hcomp]
    simp only [Bool.false_eq_true, if_false]
    rcases hsel : select b with _ | var
    · rfl
    · have hcard := mrv_card (select_eq_mrv b ▸ hsel)
      refine tryValues_none_of fun v hv hac3 => ?_
      have hvdom : v ∈ dom b var := mem_domList.mp hv
      have hsub : SubB (ac3 (setDom b var {v})).2 b := branch_SubB hvdom
      have hunsat3 : ¬ Satisfiable (ac3 (setDom b var {v})).2 :=
        fun h => hunsat (satisfiable_of_SubB hsub h)
      have hlt3 := branch_ts_lt v hcard
      rcases hcomp3 : is_board_complete (ac3 (setDom b var {v})).2 with _ | _
      · exact ih _ (by omega) hunsat3 hcomp3
      · exfalso
        apply hunsat3
        exact valid_satisfiable (complete_iff.mp hcomp3)
          (complete_consistent_valid (complete_iff.mp hcomp3) (ac3_true_consistent hac3))

lemma solveGo_some_valid : ∀ (fuel : Nat) (b b' : Board), totalSize b < fuel →
    is_board_complete b = false → solveGo fuel b = some b' → GroupsValid b' := by
  intro fuel
  induction fuel with
  | zero => intro b b' h; omega
  | succ fuel ih =>
    intro b b' hts hcomp hsol
    rw [solveGo_succ, hcomp] at hsol
    simp only [Bool.false_eq_true, if_false] at hsol
    rcases hsel : select b with _ | var
    · rw [hsel] at hsol; cases hsol
    · rw [hsel] at hsol
      have hcard := mrv_card (select_eq_mrv b ▸ hsel)
      obtain ⟨v, _, hac3, hnext⟩ := tryValues_some hsol
      have hlt3 := branch_ts_lt v hcard
      rcases hcomp3 : is_board_complete (ac3 (setDom b var {v})).2 with _ | _
      · exact ih _ _ (by omega) hcomp3 hnext
      · -- the recursion hit a complete arc-consistent board and returned it
        obtain ⟨f', rfl⟩ : ∃ f, fuel = f + 1 := ⟨fuel - 1, by omega⟩
        rw [solveGo_succ, hcomp3] at hnext
        simp only [if_true] at hnext
        cases hnext
        exact complete_consistent_valid (complete_iff.mp hcomp3) (ac3_true_consistent hac3)

/-! The explicitly state-threaded solve agrees with solve and hands the
caller board back untouched. -/

lemma tryValuesS_snd (next : Board → Option Board × Board) (b : Board) (var : Cell) :
    ∀ vs : List Digit, (tryValuesS next b var vs).2 = b := by
  intro vs
  induction vs with
  | nil => rfl
  | cons v vs ih =>
    show (tryValuesS next b var (v :: vs)).2 = b
    rcases h : ac3 (setDom b var {v}) with ⟨flag, b3⟩
    cases flag
    · have : tryValuesS next b var (v :: vs) = tryValuesS next b var vs := by
        simp [tryValuesS, h]
      rw [this, ih]
    · rcases hn : (next b3).1 with _ | sol
      · have : tryValuesS next b var (v :: vs) = tryValuesS next b var vs := by
          simp [tryValuesS, h, hn]
        rw [this, ih]
      · have : tryValuesS next b var (v :: vs) = (some sol, b) := by
          simp [tryValuesS, h, hn]
        rw [this]

lemma tryValuesS_fst {next : Board → Option Board × Board}
    {next' : Board → Option Board} (b : Board) (var : Cell)
    (hn : ∀ b3, (next b3).1 = next' b3) :
    ∀ vs : List Digit, (tryValuesS next b var vs).1 = tryValues next' b var vs := by
  intro vs
  induction vs with
  | nil => rfl
  | cons v vs ih =>
    rw [tryValues_cons]
    rcases h : ac3 (setDom b var {v}) with ⟨flag, b3⟩
    cases flag
    · simp only [Bool.false_eq_true, if_false]
      have : tryValuesS next b var (v :: vs) = tryValuesS next b var vs := by
        simp [tryValuesS, h]
      rw [this, ih]
    · simp only [if_true]
      rw [← hn b3]
      rcases hx : (next b3).1 with _ | sol
      · have : tryValuesS next b var (v :: vs) = tryValuesS next b var vs := by
          simp [tryValuesS, h, hx]
        rw [this, ih]
      · have : tryValuesS next b var (v :: vs) = (some sol, b) := by
          simp [tryValuesS, h, hx]
        rw [this]

lemma solveSGo_snd : ∀ (fuel : Nat) (b : Board), (solveSGo fuel b).2 = b := by
  intro fuel b
  cases fuel with
  | zero => rfl
  | succ fuel =>
    show (if is_board_complete b then (some b, b)
      else match select b with
        | none => (none, b)
        | some var => tryValuesS (solveSGo fuel) b var (domList (dom b var))).2 = b
    split
    · rfl
    · rcases select b with _ | var
      · rfl
      · exact tryValuesS_snd ..

lemma solveSGo_fst : ∀ (fuel : Nat) (b : Board), (solveSGo fuel b).1 = solveGo fuel b := by
  intro fuel
  induction fuel with
  | zero => intro b; rfl
  | succ fuel ih =>
    intro b
    rw [solveGo_succ]
    show (if is_board_complete b then (some b, b)
      else match select b with
        | none => (none, b)
        | some var => tryValuesS (solveSGo fuel) b var (domList (dom b var))).1 = _
    split
    · rfl
    · rcases select b with _ | var
      · rfl
      · exact tryValuesS_fst b var ih _

/-! The local deduction passes only shrink domains and preserve the
board's key set (its length). -/

lemma foldl_SubB {β : Type} (step : Board → β → Board)
    (h : ∀ b x, SubB (step b x) b) :
    ∀ (l : List β) (b : Board), SubB (l.foldl step b) b := by
  intro l
  induction l with
  | nil => intro b; exact SubB.refl b
  | cons x xs ih =>
    intro b
    rw [List.foldl_cons]
    exact (ih (step b x)).trans (h b x)

lemma nakedElim_SubB (const : List Cell) (KeyVar : Cell) (v : Digit) (b : Board) :
    SubB (nakedElim const KeyVar v b) b := by
  refine foldl_SubB _ (fun b2 k => ?_) const b
  by_cases hk : k ≠ KeyVar
  · rw [if_pos hk]
    exact SubB.setDom (Finset.erase_subset ..)
  · rw [if_neg hk]
    exact SubB.refl b2

lemma nakedGroup_SubB (b : Board) (const : List Cell) : SubB (nakedGroup b const) b := by
  refine foldl_SubB _ (fun b2 k => ?_) const b
  by_cases hk : (dom b2 k).card = 1
  · rw [if_pos hk]
    exact nakedElim_SubB ..
  · rw [if_neg hk]
    exact SubB.refl b2

lemma naked_single_SubB (b : Board) : SubB (naked_single b) b :=
  foldl_SubB _ nakedGroup_SubB constraints b

lemma hiddenGroup_SubB (b : Board) (const : List Cell) : SubB (hiddenGroup b const) b := by
  refine foldl_SubB _ (fun b2 d => ?_) digitsList b
  split
  · rename_i k heq
    refine SubB.setDom (Finset.singleton_subset_iff.mpr ?_)
    have hk : k ∈ const.filter fun c => decide (d ∈ dom b2 c) := by
      rw [heq]
      exact List.mem_cons_self ..
    have := (List.mem_filter.mp hk).2
    simpa using this
  · exact SubB.refl b2

lemma hidden_single_SubB (b : Board) : SubB (hidden_single b) b :=
  foldl_SubB _ hiddenGroup_SubB constraints b

/-! Helper facts about the concrete boards. -/

lemma consistent_of_complete_valid {b : Board}
    (hc : ∀ c, (dom b c).card = 1) (hv : GroupsValid b) :
    ∀ P Q, GoodArc (P, Q) → arcConsistent b P Q := by
  rintro P Q ⟨hne, g, hg, hP, hQ⟩ x hx
  have hdne := (hv g hg).1 P hP Q hQ hne
  obtain ⟨p, hp⟩ := Finset.card_eq_one.mp (hc P)
  obtain ⟨q, hq⟩ := Finset.card_eq_one.mp (hc Q)
  have hxp : x = p := Finset.mem_singleton.mp (hp ▸ hx)
  refine ⟨q, by rw [hq]; exact Finset.mem_singleton_self q, ?_⟩
  intro hxq
  apply hdne
  have hpq : p = q := by rw [← hxp, hxq]
  rw [hp, hq, hpq]

lemma ac3_bEmptyB : ac3 bEmptyB = (true, bEmptyB) := by
  apply ac3_of_consistent
  intro P Q _ x hx
  rw [(by decide : ∀ c, dom bEmptyB c = ∅) P] at hx
  exact absurd hx (Finset.not_mem_empty x)

lemma ac3_bFull : ac3 bFull = (true, bFull) := by
  apply ac3_of_consistent
  intro P Q _ x _
  refine ⟨x + 1, ?_, (by decide : ∀ y : Digit, y ≠ y + 1) x⟩
  rw [(by decide : ∀ c, dom bFull c = Finset.univ) Q]
  exact Finset.mem_univ _

lemma ac3_bWSol : ac3 bWSol = (true, bWSol) := by
  apply ac3_of_consistent
  exact consistent_of_complete_valid (by decide) (by decide)

lemma solve_bW : solve bW = some bWSol := by
  show solveGo (totalSize bW + 1) bW = some bWSol
  rw [solveGo_succ, (by decide : is_board_complete bW = false)]
  simp only [Bool.false_eq_true, if_false]
  rw [(by decide : select bW = some cA1)]
  show tryValues (solveGo (totalSize bW)) bW cA1 (domList (dom bW cA1)) = some bWSol
  rw [(by decide : domList (dom bW cA1) = [dg 3, dg 5])]
  rw [tryValues_cons, (by decide : setDom bW cA1 {dg 3} = bWSol), ac3_bWSol]
  simp only [if_true]
  have hrec : solveGo (totalSize bW) bWSol = some bWSol := by
    rw [solveGo_eq_solve (by decide : totalSize bWSol < totalSize bW)]
    show solveGo (totalSize bWSol + 1) bWSol = some bWSol
    rw [solveGo_succ, (by decide : is_board_complete bWSol = true)]
    simp
  rw [hrec]

lemma naked_bN_pass1 : naked_single bN = nC := by
  show ((rowCons ++ colCons) ++ boxCons).foldl nakedGroup bN = nC
  rw [List.foldl_append, (by decide : (rowCons ++ colCons).foldl nakedGroup bN = nB)]
  exact (by decide : boxCons.foldl nakedGroup nB = nC)

lemma naked_bN_pass2 : naked_single nC = nF := by
  show ((rowCons ++ colCons) ++ boxCons).foldl nakedGroup nC = nF
  rw [List.foldl_append, (by decide : (rowCons ++ colCons).foldl nakedGroup nC = nE)]
  exact (by decide : boxCons.foldl nakedGroup nE = nF)

lemma hidden_bH_pass1 : hidden_single bH = hC := by
  show ((rowCons ++ colCons) ++ boxCons).foldl hiddenGroup bH = hC
  rw [List.foldl_append, (by decide : (rowCons ++ colCons).foldl hiddenGroup bH = hB)]
  exact (by decide : boxCons.foldl hiddenGroup hB = hC)

lemma hidden_bH_pass2 : hidden_single hC = hF := by
  show ((rowCons ++ colCons) ++ boxCons).foldl hiddenGroup hC = hF
  rw [List.foldl_append, (by decide : (rowCons ++ colCons).foldl hiddenGroup hC = hE)]
  exact (by decide : boxCons.foldl hiddenGroup hE = hF)

/-! The claims. -/

/-- Claim C1 (amended): if some assignment from the current domains
satisfies all group constraints, solve returns a complete (all-singleton,
hence nowhere-empty) board; on an unsatisfiable board that is not already
complete, solve returns None; any returned board is complete, so it never
contains an empty domain; and the recursion terminates, its result being
fuel-independent beyond the summed-domain-size bound.  (As stated the
claim is false: an already-complete board is returned without any
constraint check, see the counterexample.) -/
theorem claim_C1_search_behavior (b : Board) :
    (Satisfiable b → ∃ b', solve b = some b' ∧ is_board_complete b' = true) ∧
    (¬ Satisfiable b → is_board_complete b = false → solve b = none) ∧
    (∀ b', solve b = some b' → ∀ c, (dom b' c).Nonempty) ∧
    (∀ fuel, totalSize b < fuel → solveGo fuel b = solve b) := by
  refine ⟨?_, ?_, ?_, fun fuel h => solveGo_eq_solve h⟩
  · intro hsat
    obtain ⟨b', hb'⟩ := solveGo_isSome_of_sat _ b (Nat.lt_succ_self _) hsat
    exact ⟨b', hb', solveGo_some_complete _ _ _ (Nat.lt_succ_self _) hb'⟩
  · intro h1 h2
    exact solveGo_none_of_unsat _ _ (Nat.lt_succ_self _) h1 h2
  · intro b' hb' c
    have := complete_iff.mp (solveGo_some_complete _ _ _ (Nat.lt_succ_self _) hb') c
    exact Finset.card_pos.mp (by omega)

/-- Claim C1, counterexample to the claim as stated: the board pinning
every cell to the digit 5 admits no satisfying assignment, yet solve
returns it as a Solved board instead of the Exhausted sentinel. -/
theorem claim_C1_counterexample : ¬ Satisfiable bAll5 ∧ solve bAll5 = some bAll5 := by
  constructor
  · rintro ⟨f, hadm, hsat⟩
    have h1 : f cA1 = dg 5 := by
      have := hadm cA1
      rw [(by decide : dom bAll5 cA1 = {dg 5})] at this
      exact Finset.mem_singleton.mp this
    have h2 : f cA2 = dg 5 := by
      have := hadm cA2
      rw [(by decide : dom bAll5 cA2 = {dg 5})] at this
      exact Finset.mem_singleton.mp this
    exact hsat (rowGroup 0) (by decide) cA1 (by decide) cA2 (by decide)
      (by decide) (h1.trans h2.symm)
  · show solveGo (totalSize bAll5 + 1) bAll5 = some bAll5
    rw [solveGo_succ, (by decide : is_board_complete bAll5 = true)]
    simp

/-- Claim C1, witness: the completed example grid is satisfiable, and
solve returns a complete board on it. -/
theorem claim_C1_witness :
    Satisfiable bSolved ∧ ∃ b', solve bSolved = some b' ∧ is_board_complete b' = true := by
  have hsat : Satisfiable bSolved := ⟨fSol, by decide, by decide⟩
  exact ⟨hsat, (claim_C1_search_behavior bSolved).1 hsat⟩

/-- Claim C2 (amended): every non-None board solve returns is complete,
and when the input board was not already complete, the returned board's 27
groups hold pairwise distinct singleton values covering every digit 1..9
(a permutation).  (As stated the claim is false: the size-1-everywhere
terminal check returns an already-complete input unchanged and
unvalidated, see the counterexample.) -/
theorem claim_C2_output_validity (b b' : Board)
    (h1 : is_board_complete b = false) (h2 : solve b = some b') :
    is_board_complete b' = true ∧ GroupsValid b' :=
  ⟨solveGo_some_complete _ _ _ (Nat.lt_succ_self _) h2,
   solveGo_some_valid _ _ _ (Nat.lt_succ_self _) h1 h2⟩

/-- Claim C2, counterexample to the claim as stated: the complete board
pinning every cell to the digit 7 is returned by solve although its
groups repeat the value 7 and are no permutation of 1..9. -/
theorem claim_C2_counterexample : solve bAll7 = some bAll7 ∧ ¬ GroupsValid bAll7 := by
  constructor
  · show solveGo (totalSize bAll7 + 1) bAll7 = some bAll7
    rw [solveGo_succ, (by decide : is_board_complete bAll7 = true)]
    simp
  · decide

/-- Claim C2, witness: on the example grid reopened at A1 (an incomplete
board), solve returns a complete board whose groups are valid. -/
theorem claim_C2_witness :
    is_board_complete bW = false ∧ is_board_complete bWSol = true ∧ GroupsValid bWSol := by
  have h := claim_C2_output_validity bW bWSol (by decide) solve_bW
  exact ⟨by decide, h.1, h.2⟩

/-- Claim C3 (confirmed): soundness of pruning.  If an assignment drawn
from the board's current domains satisfies all group constraints, ac3
never removes any of its values: each assigned value is still in its
cell's domain after the run. -/
theorem claim_C3_pruning_sound (b : Board) (f : Cell → Digit)
    (hadm : ∀ c, f c ∈ dom b c) (hsat : Satisfies f) :
    ∀ c, f c ∈ dom (ac3 b).2 c :=
  ac3_adm hsat hadm

/-- Claim C3, witness: the example solution is admissible on the all-full
board and satisfies the constraints, so ac3 keeps all its values. -/
theorem claim_C3_witness :
    (∀ c, fSol c ∈ dom bFull c) ∧ Satisfies fSol ∧ ∀ c, fSol c ∈ dom (ac3 bFull).2 c := by
  have h1 : ∀ c, fSol c ∈ dom bFull c := by decide
  have h2 : Satisfies fSol := by decide
  exact ⟨h1, h2, claim_C3_pruning_sound bFull fSol h1 h2⟩

/-- Claim C4 (amended): ac3 mutates the board only by removing candidate
values; when it returns False some domain is empty at that moment (it
returns immediately upon emptying one); and if every input domain is
non-empty, a True return leaves every domain non-empty.  (The claimed
biconditional is false as stated: a board whose domains are already empty
is never revised, so ac3 returns True over empty domains, see the
counterexample.) -/
theorem claim_C4_ac3_contract (b : Board) :
    (∀ c, dom (ac3 b).2 c ⊆ dom b c) ∧
    ((ac3 b).1 = false → ∃ c, dom (ac3 b).2 c = ∅) ∧
    ((∀ c, dom b c ≠ ∅) → (ac3 b).1 = true → ∀ c, dom (ac3 b).2 c ≠ ∅) :=
  ⟨(ac3_SubB b).dom_subset, fun h => ac3Go_false_empty _ _ _ h,
   fun h1 h2 => ac3Go_true_nonempty _ _ _ h1 h2⟩

/-- Claim C4, counterexample to the claim as stated: on the board whose
81 domains are all empty, ac3 returns True although every domain is empty
at the moment it returns. -/
theorem claim_C4_counterexample : (ac3 bEmptyB).1 = true ∧ dom (ac3 bEmptyB).2 cA1 = ∅ := by
  rw [ac3_bEmptyB]
  exact ⟨rfl, by decide⟩

/-- Claim C4, witness: the all-full board has no empty domain, ac3
returns True on it, and no domain is empty afterwards. -/
theorem claim_C4_witness :
    (∀ c, dom bFull c ≠ ∅) ∧ (ac3 bFull).1 = true ∧ ∀ c, dom (ac3 bFull).2 c ≠ ∅ := by
  have h1 : ∀ c, dom bFull c ≠ ∅ := by decide
  have h2 : (ac3 bFull).1 = true := by rw [ac3_bFull]
  exact ⟨h1, h2, (claim_C4_ac3_contract bFull).2.2 h1 h2⟩

/-- Claim C5 (confirmed): AC-3 termination.  The worklist loop finishes
within totalSize shrink events: for any fuel beyond that bound the run
returns the same boolean and board as ac3 itself, so the Python loop,
which is the limit of these runs, terminates on every board. -/
theorem claim_C5_ac3_termination (b : Board) (fuel : Nat) (h : totalSize b < fuel) :
    ac3Go fuel initArcs b = ac3 b :=
  ac3Go_fuel_irrel initArcs h (Nat.lt_succ_self _)

/-- Claim C5, witness: on the all-empty board the bound is immediate. -/
theorem claim_C5_witness :
    totalSize bEmptyB < 730 ∧ ac3Go 730 initArcs bEmptyB = ac3 bEmptyB :=
  ⟨by decide, claim_C5_ac3_termination bEmptyB 730 (by decide)⟩

/-- Claim C6 (amended): when ac3 returns True, running it again changes
nothing: the second run returns True with the identical board.  (The
claim as stated also asserts idempotence after a False return, which is
false: a second run can empty further domains, see the counterexample.) -/
theorem claim_C6_idempotent_on_success (b : Board) (h : (ac3 b).1 = true) :
    ac3 (ac3 b).2 = (true, (ac3 b).2) :=
  ac3_of_consistent (ac3_true_consistent h)

/-- Claim C6, counterexample to the claim as stated: on the board with
two clashing 1-pinned cells in row A, the first ac3 run returns False,
and a second run still removes values (it empties A2). -/
theorem claim_C6_counterexample :
    (ac3 bC6).1 = false ∧ dom (ac3 (ac3 bC6).2).2 cA2 ≠ dom (ac3 bC6).2 cA2 := by
  decide

/-- Claim C6, witness: ac3 returns True on the all-full board, and the
second run reproduces the first run's board exactly. -/
theorem claim_C6_witness :
    (ac3 bFull).1 = true ∧ ac3 (ac3 bFull).2 = (true, (ac3 bFull).2) := by
  have h : (ac3 bFull).1 = true := by rw [ac3_bFull]
  exact ⟨h, claim_C6_idempotent_on_success bFull h⟩

/-- Claim C7 (amended): naked_single and hidden_single are single passes
whose repetition only removes further candidates, but neither is
idempotent: on bN a second naked_single pass strictly shrinks cell A5,
and on bH a second hidden_single pass strictly shrinks cell A3 (each pass
exploits a singleton produced by a later group only on the next pass). -/
theorem claim_C7_passes_not_idempotent :
    (∀ (b : Board) (c : Cell),
      dom (naked_single (naked_single b)) c ⊆ dom (naked_single b) c ∧
      dom (hidden_single (hidden_single b)) c ⊆ dom (hidden_single b) c) ∧
    dom (naked_single (naked_single bN)) cA5 ≠ dom (naked_single bN) cA5 ∧
    dom (hidden_single (hidden_single bH)) cA3 ≠ dom (hidden_single bH) cA3 := by
  refine ⟨fun b c => ⟨(naked_single_SubB _).dom_subset c, (hidden_single_SubB _).dom_subset c⟩,
    ?_, ?_⟩
  · rw [naked_bN_pass1, naked_bN_pass2]
    decide
  · rw [hidden_bH_pass1, hidden_bH_pass2]
    decide

/-- Claim C7, counterexample to the claim as stated: running naked_single
twice on bN yields a different board than running it once (cell A5 loses
the candidate 1 only on the second pass), so the rules are not idempotent. -/
theorem claim_C7_counterexample :
    dom (naked_single (naked_single bN)) cA5 ≠ dom (naked_single bN) cA5 := by
  rw [naked_bN_pass1, naked_bN_pass2]
  decide

/-- Claim C8 (confirmed): mrv and degree_heuristic return None under
exactly the same condition, namely that no cell has more than one
candidate, and the selection expression mrv-or-degree always equals mrv's
own result: the Degree fallback never determines the branching variable. -/
theorem claim_C8_degree_dead_code (b : Board) :
    (mrv b = none ↔ degree_heuristic b = none) ∧
    (mrv b = none ↔ unassignedCells b = []) ∧
    select b = mrv b :=
  ⟨mrv_none_iff.trans degree_none_iff.symm, mrv_none_iff, select_eq_mrv b⟩

/-- Claim C9 (confirmed): solve never mutates its argument board.  In the
state-threaded embedding solveSGo, whose second component is the state of
the caller-owned board object after the call, that state equals the input
for every fuel, while the first component is the usual solve result; mrv
and degree_heuristic only read the board and embed as pure functions. -/
theorem claim_C9_solve_frame (fuel : Nat) (b : Board) :
    (solveSGo fuel b).2 = b ∧ (solveSGo fuel b).1 = solveGo fuel b :=
  ⟨solveSGo_snd fuel b, solveSGo_fst fuel b⟩

/-- Claim C10 (confirmed): naked_single, hidden_single and ac3 preserve
the board's key set (its 81 entries: the length of the domain list) and
never enlarge any domain: each cell's domain after the call is a subset
of its domain before. -/
theorem claim_C10_shrink_coverage (b : Board) :
    ((naked_single b).length = b.length ∧ ∀ c, dom (naked_single b) c ⊆ dom b c) ∧
    ((hidden_single b).length = b.length ∧ ∀ c, dom (hidden_single b) c ⊆ dom b c) ∧
    ((ac3 b).2.length = b.length ∧ ∀ c, dom (ac3 b).2 c ⊆ dom b c) :=
  ⟨⟨(naked_single_SubB b).1, (naked_single_SubB b).dom_subset⟩,
   ⟨(hidden_single_SubB b).1, (hidden_single_SubB b).dom_subset⟩,
   ⟨(ac3_SubB b).1, (ac3_SubB b).dom_subset⟩⟩

end SudokuCSP
